import Mathlib

/-! # NEC infrared capture and codec (`src/IR1/IR1.cpp`)

A shallow embedding of the timer-driven sampler (`ISR(TIMER_INTR_NAME)`), the
NEC decoder (`decode1`, `decodeNEC1`), the tolerance matchers (`MATCH_MARK1`,
`MATCH_SPACE1`) and the NEC transmitter (`sendNEC1`, `mark1`, `space1`).

The headers `IR1.h` and `IRint1.h` are not among the sources: every constant,
macro and integer width they declare is a field of `Config`, except the two
that the specification fixes (`NEC_BITS`, `TOPBIT`).
-/

namespace IR1

/-! ## Data model -/

/-- The level read from the receiver pin, compared in the sampler against the
header constants `MARK` and `SPACE`; `digitalRead` yields one of two levels. -/
inductive Level where
  | MARK
  | SPACE
  deriving DecidableEq, Repr

/-- The values of `irparams1.rcvstate` that the `switch` of the sampler
distinguishes. -/
inductive RcvState where
  | STATE_IDLE
  | STATE_MARK
  | STATE_SPACE
  | STATE_STOP
  deriving DecidableEq, Repr

/-- Everything `IR1.cpp` takes from its missing headers.

* `timerMod` is the modulus of the type of `irparams1.timer` (`0` stands for a
  counter that never wraps, `65536` for a 16-bit `unsigned int`);
* `TICKS_LOW` / `TICKS_HIGH` are the two tolerance macros, kept abstract;
* the remaining fields are the named constants. -/
structure Config where
  USECPERTICK : Int
  RAWBUF : Nat
  GAP_TICKS : Nat
  timerMod : Nat
  MARK_EXCESS : Int
  TICKS_LOW : Int → Int
  TICKS_HIGH : Int → Int
  NEC_HDR_MARK : Int
  NEC_HDR_SPACE : Int
  NEC_BIT_MARK : Int
  NEC_ONE_SPACE : Int
  NEC_ZERO_SPACE : Int
  NEC_RPT_SPACE : Int
  REPEAT : Nat
  NEC : Int

/-- Modelled from the spec: the header constant `NEC_BITS`, the payload bit
count of the protocol timing table ("bit count (32 for NEC)"). -/
def NEC_BITS : Nat := 32

/-- Modelled from the spec: the header constant `TOPBIT`; the encoder takes the
bits of its 32-bit data word most-significant first, so the mask is bit 31. -/
def TOPBIT : Nat := 0x80000000

/-- Modulus of `long` / `unsigned long` on the AVR target (32 bits). -/
def LONG_MOD : Nat := 2 ^ 32

/-- Return value "no data ready" of `decode1` (`0`, line 151 of the source). -/
def ERR : Int := 0

/-- Return value "data ready" of `decode1` (`1`, line 151 of the source). -/
def DECODED : Int := 1

/-- The global `irparams1`: receiver state, tick counter, raw buffer and the
number of entries recorded.  `rawbuf` is the memory starting at the array, so a
write past `RAWBUF` would be visible as a change at an index `≥ RAWBUF`. -/
structure irparams_t where
  rcvstate : RcvState
  timer : Nat
  rawbuf : Nat → Nat
  rawlen : Nat

/-- The caller's `decode_results` record. -/
structure decode_results where
  decode_type : Int
  value : Nat
  bits : Int
  rawbuf : Nat → Nat
  rawlen : Nat

/-- Assignment `buf[i] = v`. -/
def write (buf : Nat → Nat) (i v : Nat) : Nat → Nat :=
  fun j => if j = i then v else buf j

/-! ## Tolerance matchers (lines 23-49) -/

/-- `MATCH_MARK1(measured_ticks, desired_us)`, line 34. -/
def MATCH_MARK1 (cfg : Config) (measured_ticks desired_us : Int) : Bool :=
  decide (measured_ticks ≥ cfg.TICKS_LOW (desired_us + cfg.MARK_EXCESS)) &&
    decide (measured_ticks ≤ cfg.TICKS_HIGH (desired_us + cfg.MARK_EXCESS))

/-- `MATCH_SPACE1(measured_ticks, desired_us)`, line 48. -/
def MATCH_SPACE1 (cfg : Config) (measured_ticks desired_us : Int) : Bool :=
  decide (measured_ticks ≥ cfg.TICKS_LOW (desired_us - cfg.MARK_EXCESS)) &&
    decide (measured_ticks ≤ cfg.TICKS_HIGH (desired_us - cfg.MARK_EXCESS))

/-! ## Receiver (lines 58-218) -/

/-- `IRreceiver1::enableIRIn1`, lines 73-75: the state machine variables it
initialises (timer and buffer are left as they are). -/
def enableIRIn1 (irparams1 : irparams_t) : irparams_t :=
  { irparams1 with rcvstate := .STATE_IDLE, rawlen := 0 }

/-- `IRreceiver1::resume1`, lines 145-148. -/
def resume1 (irparams1 : irparams_t) : irparams_t :=
  { irparams1 with rcvstate := .STATE_IDLE, rawlen := 0 }

/-- One run of `ISR(TIMER_INTR_NAME)`, lines 88-143, on the pin level `irdata`. -/
def ISR (cfg : Config) (irdata : Level) (irparams1 : irparams_t) : irparams_t :=
  let p1 : irparams_t := { irparams1 with timer := (irparams1.timer + 1) % cfg.timerMod }
  let p2 : irparams_t :=
    if p1.rawlen ≥ cfg.RAWBUF then { p1 with rcvstate := .STATE_STOP } else p1
  match p2.rcvstate with
  | .STATE_IDLE =>
    if irdata = .MARK then
      if p2.timer < cfg.GAP_TICKS then
        { p2 with timer := 0 }
      else
        { rcvstate := .STATE_MARK, timer := 0,
          rawbuf := write p2.rawbuf 0 p2.timer, rawlen := 0 + 1 }
    else p2
  | .STATE_MARK =>
    if irdata = .SPACE then
      { rcvstate := .STATE_SPACE, timer := 0,
        rawbuf := write p2.rawbuf p2.rawlen p2.timer, rawlen := p2.rawlen + 1 }
    else p2
  | .STATE_SPACE =>
    if irdata = .MARK then
      { rcvstate := .STATE_MARK, timer := 0,
        rawbuf := write p2.rawbuf p2.rawlen p2.timer, rawlen := p2.rawlen + 1 }
    else
      if p2.timer > cfg.GAP_TICKS then { p2 with rcvstate := .STATE_STOP } else p2
  | .STATE_STOP =>
    if irdata = .MARK then { p2 with timer := 0 } else p2

/-- The sampler run once per tick over a stream of pin levels, oldest first. -/
def runISR (cfg : Config) (samples : List Level) (irparams1 : irparams_t) : irparams_t :=
  samples.foldl (fun p irdata => ISR cfg irdata p) irparams1

/-- The bit loop of `decodeNEC1`, lines 197-212, with `n` iterations left;
`none` is the `return ERR` inside the loop.  `data` is the bit pattern of the
32-bit `long`. -/
def decodeBits (cfg : Config) (rawbuf : Nat → Nat) : Nat → Nat → Nat → Option Nat
  | 0, _, data => some data
  | n + 1, offset, data =>
    if !MATCH_MARK1 cfg (rawbuf offset) cfg.NEC_BIT_MARK then none
    else if MATCH_SPACE1 cfg (rawbuf (offset + 1)) cfg.NEC_ONE_SPACE then
      decodeBits cfg rawbuf n (offset + 1 + 1) (((data <<< 1) ||| 1) % LONG_MOD)
    else if MATCH_SPACE1 cfg (rawbuf (offset + 1)) cfg.NEC_ZERO_SPACE then
      decodeBits cfg rawbuf n (offset + 1 + 1) ((data <<< 1) % LONG_MOD)
    else none

/-- `IRreceiver1::decodeNEC1`, lines 172-218: the returned status and the
results record after the call. -/
def decodeNEC1 (cfg : Config) (irparams1 : irparams_t) (results : decode_results) :
    Int × decode_results :=
  let offset := 1
  if !MATCH_MARK1 cfg (results.rawbuf offset) cfg.NEC_HDR_MARK then (ERR, results)
  else
    let offset := offset + 1
    if irparams1.rawlen = 4 ∧
        MATCH_SPACE1 cfg (results.rawbuf offset) cfg.NEC_RPT_SPACE = true ∧
        MATCH_MARK1 cfg (results.rawbuf (offset + 1)) cfg.NEC_BIT_MARK = true then
      (DECODED, { results with bits := 0, value := cfg.REPEAT, decode_type := cfg.NEC })
    else if irparams1.rawlen < 2 * NEC_BITS + 4 then (ERR, results)
    else if !MATCH_SPACE1 cfg (results.rawbuf offset) cfg.NEC_HDR_SPACE then (ERR, results)
    else
      match decodeBits cfg results.rawbuf NEC_BITS (offset + 1) 0 with
      | none => (ERR, results)
      | some data =>
        (DECODED, { results with bits := NEC_BITS, value := data, decode_type := cfg.NEC })

/-- `IRreceiver1::decode1`, lines 153-169: the returned status, the global
`irparams1` and the results record after the call. -/
def decode1 (cfg : Config) (irparams1 : irparams_t) (results : decode_results) :
    Int × irparams_t × decode_results :=
  let results : decode_results :=
    { results with rawbuf := irparams1.rawbuf, rawlen := irparams1.rawlen }
  if irparams1.rcvstate ≠ .STATE_STOP then (ERR, irparams1, results)
  else
    let r := decodeNEC1 cfg irparams1 results
    if r.1 ≠ 0 then (DECODED, irparams1, r.2)
    else (ERR, resume1 irparams1, r.2)

/-! ## Transmitter (lines 221-281) -/

/-- What the transmitter does to the output hardware. -/
inductive PinOp where
  | TIMER_DISABLE_INTR
  | pinModeOutput
  | digitalWriteLow
  | TIMER_CONFIG_KHZ (khz : Int)
  | TIMER_ENABLE_PWM
  | TIMER_DISABLE_PWM
  | delayMicroseconds (us : Int)
  deriving DecidableEq, Repr

/-- `IRemission1::mark1`, lines 241-246. -/
def mark1 (time : Int) : List PinOp :=
  PinOp.TIMER_ENABLE_PWM :: (if time > 0 then [PinOp.delayMicroseconds time] else [])

/-- `IRemission1::space1`, lines 249-254. -/
def space1 (time : Int) : List PinOp :=
  PinOp.TIMER_DISABLE_PWM :: (if time > 0 then [PinOp.delayMicroseconds time] else [])

/-- `IRemission1::enableIROut1`, lines 256-281. -/
def enableIROut1 (khz : Int) : List PinOp :=
  [PinOp.TIMER_DISABLE_INTR, PinOp.pinModeOutput, PinOp.digitalWriteLow,
    PinOp.TIMER_CONFIG_KHZ khz]

/-- A call made by `sendNEC1`, with its argument. -/
inductive Call where
  | enableIROut1 (khz : Int)
  | mark1 (time : Int)
  | space1 (time : Int)
  deriving DecidableEq, Repr

/-- The body of the called function. -/
def Call.exec : Call → List PinOp
  | .enableIROut1 khz => IR1.enableIROut1 khz
  | .mark1 time => IR1.mark1 time
  | .space1 time => IR1.space1 time

/-- The loop of `sendNEC1`, lines 226-236, with `n` iterations left; `data` is
the 32-bit `unsigned long`. -/
def sendBits (cfg : Config) : Nat → Nat → List Call
  | 0, _ => []
  | n + 1, data =>
    (if data &&& TOPBIT ≠ 0 then
        [Call.mark1 cfg.NEC_BIT_MARK, Call.space1 cfg.NEC_ONE_SPACE]
      else
        [Call.mark1 cfg.NEC_BIT_MARK, Call.space1 cfg.NEC_ZERO_SPACE]) ++
      sendBits cfg n ((data <<< 1) % LONG_MOD)

/-- `IRemission1::sendNEC1`, lines 221-239: the calls it makes, in order.  The
loop `for (int i = 0; i < nbits; i++)` runs `nbits` times, and not at all for a
negative `nbits`. -/
def sendNEC1 (cfg : Config) (data : Nat) (nbits : Int) : List Call :=
  [Call.enableIROut1 38, Call.mark1 cfg.NEC_HDR_MARK, Call.space1 cfg.NEC_HDR_SPACE] ++
    sendBits cfg nbits.toNat data ++
    [Call.mark1 cfg.NEC_BIT_MARK, Call.space1 0]

/-- The mark and space calls among a list of calls. -/
def emissions (calls : List Call) : List Call :=
  calls.filter (fun c => match c with
    | .enableIROut1 _ => false
    | _ => true)

/-! ## A reference configuration -/

/-- Modelled from the spec: a configuration for the missing headers.  Pulse
durations and the 50 µs tick are those of the spec's concrete scenario; the
values the spec leaves open are the customary ones of this receiver family
(25 % tolerance, 100 µs mark excess, 5000 µs minimum gap, 100 buffer entries,
16-bit tick counter, 2250 µs repeat space, all-ones repeat sentinel). -/
def refConfig : Config where
  USECPERTICK := 50
  RAWBUF := 100
  GAP_TICKS := 100
  timerMod := 65536
  MARK_EXCESS := 100
  TICKS_LOW := fun us => Int.tdiv (us * 75) 5000
  TICKS_HIGH := fun us => Int.tdiv (us * 125 + 5000) 5000
  NEC_HDR_MARK := 9000
  NEC_HDR_SPACE := 4500
  NEC_BIT_MARK := 560
  NEC_ONE_SPACE := 1690
  NEC_ZERO_SPACE := 560
  NEC_RPT_SPACE := 2250
  REPEAT := 0xffffffff
  NEC := 1

/-! ## Concrete captures used as test inputs -/

/-- A four-entry capture used to exercise the repeat path: header mark of 180
ticks, repeat space of 45 ticks, bit mark of 11 ticks. -/
def repeatCapture : irparams_t where
  rcvstate := .STATE_STOP
  timer := 200
  rawbuf := fun i => if i = 1 then 180 else if i = 2 then 45 else if i = 3 then 11 else 7
  rawlen := 4

/-- A results record holding recognisable stale contents. -/
def staleResults : decode_results where
  decode_type := 77
  value := 12345
  bits := 9
  rawbuf := fun _ => 0
  rawlen := 0

/-! ## Reading the transmitter's output -/

/-- The `i`-th payload bit of a 32-bit data word taken most-significant first:
bit `31 - i` of `data`, and 0 once all 32 bits have been taken. -/
def msbBit (data i : Nat) : Bool :=
  decide (i < 32) && data.testBit (31 - i)

/-- The mark and the space the transmitter is expected to emit for a payload
bit. -/
def bitEmission (cfg : Config) (bit : Bool) : List Call :=
  [Call.mark1 cfg.NEC_BIT_MARK,
    Call.space1 (if bit then cfg.NEC_ONE_SPACE else cfg.NEC_ZERO_SPACE)]

/-- The emission sequence the specification describes: header mark, header
space, a mark and a space per payload bit (most-significant first), the closing
bit mark and a zero-length closing space. -/
def expectedEmissions (cfg : Config) (data nbits : Nat) : List Call :=
  [Call.mark1 cfg.NEC_HDR_MARK, Call.space1 cfg.NEC_HDR_SPACE] ++
    (List.range nbits).flatMap (fun i => bitEmission cfg (msbBit data i)) ++
    [Call.mark1 cfg.NEC_BIT_MARK, Call.space1 0]

/-- Whether a call is `mark1`. -/
def Call.isMark : Call → Bool
  | .mark1 _ => true
  | _ => false

/-- Whether a call is `space1`. -/
def Call.isSpace : Call → Bool
  | .space1 _ => true
  | _ => false

/-! ## Reading a capture -/

/-- The value of `n` bits read most-significant first: bit `i` carries the
binary weight `2 ^ (n - 1 - i)`. -/
def msbFirstValue (b : Nat → Bool) (n : Nat) : Nat :=
  ∑ i ∈ Finset.range n, if b i then 2 ^ (n - 1 - i) else 0

/-- The classification of payload bit `i` of a capture: 1 when the space at
entry `4 + 2 * i` matches the one-space (the test the decoder makes first), 0
otherwise. -/
def classifiedBit (cfg : Config) (rawbuf : Nat → Nat) (i : Nat) : Bool :=
  MATCH_SPACE1 cfg (rawbuf (4 + 2 * i)) cfg.NEC_ONE_SPACE

/-- The capture of the spec's concrete scenario in 50 µs ticks: the gap, header
mark 9000 µs, header space 4500 µs, then 32 bits alternating 1, 0, 1, 0, ...
with bit mark 560 µs, one-space 1690 µs, zero-space 560 µs, and the terminating
bit mark. -/
def scenarioCapture (gap : Nat) : Nat → Nat := fun i =>
  if i = 0 then gap
  else if i = 1 then 9000 / 50
  else if i = 2 then 4500 / 50
  else if i % 2 = 1 then 560 / 50
  else if (i - 4) / 2 % 2 = 0 then 1690 / 50
  else 560 / 50

/-! ## Replaying a transmission into the sampler -/

/-- The number of sampler ticks that fall into the delay of `mark1(time)` or
`space1(time)`: none when no delay is made (`time ≤ 0`), otherwise one per full
tick length. -/
def delayTicks (cfg : Config) (time : Int) : Nat :=
  if time > 0 then (time / cfg.USECPERTICK).toNat else 0

/-- The pin levels the receiver samples while a call of the transmitter runs. -/
def Call.samples (cfg : Config) : Call → List Level
  | .enableIROut1 _ => []
  | .mark1 time => List.replicate (delayTicks cfg time) Level.MARK
  | .space1 time => List.replicate (delayTicks cfg time) Level.SPACE

/-- The sample stream of a replay: `g` ticks of silence, the transmission, `q`
ticks of silence. -/
def replay (cfg : Config) (g q : Nat) (calls : List Call) : List Level :=
  List.replicate g Level.SPACE ++ calls.flatMap (Call.samples cfg) ++
    List.replicate q Level.SPACE

/-- The entries recorded so far, oldest first. -/
def captured (p : irparams_t) : List Nat :=
  (List.range p.rawlen).map p.rawbuf

/-- The tick counter after `k` further increments. -/
def tickN (cfg : Config) (k t : Nat) : Nat :=
  (fun x => (x + 1) % cfg.timerMod)^[k] t

/-- A mark of `n` ticks is sampled, recorded without wrapping and accepted as
the nominal duration `us`. -/
def markFits (cfg : Config) (n : Nat) (us : Int) : Prop :=
  1 ≤ n ∧ n % cfg.timerMod = n ∧ MATCH_MARK1 cfg n us = true

/-- A space of `n` ticks is sampled, does not end the capture, is recorded
without wrapping and accepted as the nominal duration `us`. -/
def spaceFits (cfg : Config) (n : Nat) (us : Int) : Prop :=
  1 ≤ n ∧ n ≤ cfg.GAP_TICKS + 1 ∧ n % cfg.timerMod = n ∧ MATCH_SPACE1 cfg n us = true

/-- What a configuration must satisfy for the receiver to read back what the
transmitter sends: the buffer holds a full NEC capture, the tick counter can
count past `GAP_TICKS`, and the tick counts of the five nominal durations are
accepted by the matchers, the zero-space not being taken for a one-space. -/
structure Nominal (cfg : Config) : Prop where
  buffer : 2 * NEC_BITS + 4 ≤ cfg.RAWBUF
  counter : (cfg.GAP_TICKS + 1) % cfg.timerMod = cfg.GAP_TICKS + 1
  hdr_mark : markFits cfg (delayTicks cfg cfg.NEC_HDR_MARK) cfg.NEC_HDR_MARK
  hdr_space : spaceFits cfg (delayTicks cfg cfg.NEC_HDR_SPACE) cfg.NEC_HDR_SPACE
  bit_mark : markFits cfg (delayTicks cfg cfg.NEC_BIT_MARK) cfg.NEC_BIT_MARK
  one_space : spaceFits cfg (delayTicks cfg cfg.NEC_ONE_SPACE) cfg.NEC_ONE_SPACE
  zero_space : spaceFits cfg (delayTicks cfg cfg.NEC_ZERO_SPACE) cfg.NEC_ZERO_SPACE
  zero_not_one :
    MATCH_SPACE1 cfg (delayTicks cfg cfg.NEC_ZERO_SPACE) cfg.NEC_ONE_SPACE = false

/-- The sample stream of consecutive (mark, space) runs given by their lengths
in ticks. -/
def pairSamples (ps : List (Nat × Nat)) : List Level :=
  ps.flatMap (fun x => List.replicate x.1 Level.MARK ++ List.replicate x.2 Level.SPACE)

/-- The tick count of the space the transmitter emits for a payload bit. -/
def bitSpaceTicks (cfg : Config) (bit : Bool) : Nat :=
  delayTicks cfg (if bit then cfg.NEC_ONE_SPACE else cfg.NEC_ZERO_SPACE)

/-! ## Carrier frequency, reachable states and the decoder's reads -/

/-- The carrier frequencies, in kHz, at which a list of calls enables the
modulated output: the arguments of its `enableIROut1` calls, in order. -/
def enabledKHz : List Call → List Int
  | [] => []
  | Call.enableIROut1 khz :: rest => khz :: enabledKHz rest
  | _ :: rest => enabledKHz rest

/-- The first store of `resume1` (line 146) and of `enableIRIn1` (line 74). -/
def storeRcvstate (irparams1 : irparams_t) : irparams_t :=
  { irparams1 with rcvstate := .STATE_IDLE }

/-- The second store of `resume1` (line 147) and of `enableIRIn1` (line 75). -/
def storeRawlen (irparams1 : irparams_t) : irparams_t :=
  { irparams1 with rawlen := 0 }

/-- The states of `irparams1` that the program can produce, paired with whether
the mainline code stands between the two stores of `resume1` or `enableIRIn1`.
The timer interrupt is enabled by `sei()` on line 71 and never masked by
`resume1`, `decode1` or the stores of `enableIRIn1`, so a sampler tick can fall
at any point, in particular between the two stores.  `decode1` changes
`irparams1` only by calling `resume1`, that is by these two stores. -/
inductive Reachable (cfg : Config) : irparams_t → Bool → Prop where
  | arm (p : irparams_t) : Reachable cfg (enableIRIn1 p) false
  | tick (irdata : Level) {p : irparams_t} {mid : Bool} :
      Reachable cfg p mid → Reachable cfg (ISR cfg irdata p) mid
  | storeFirst {p : irparams_t} : Reachable cfg p false → Reachable cfg (storeRcvstate p) true
  | storeSecond {p : irparams_t} : Reachable cfg p true → Reachable cfg (storeRawlen p) false

/-- The states the program produces when no sampler tick falls between the two
stores of `enableIRIn1` or `resume1` (as if the calls ran with the timer
interrupt masked): `enableIRIn1` arms the receiver, then sampler ticks, whole
`resume1` calls and whole `decode1` calls follow in any order. -/
inductive ReachableAtomic (cfg : Config) : irparams_t → Prop where
  | arm (p : irparams_t) : ReachableAtomic cfg (enableIRIn1 p)
  | tick (irdata : Level) {p : irparams_t} : ReachableAtomic cfg p → ReachableAtomic cfg (ISR cfg irdata p)
  | resume {p : irparams_t} : ReachableAtomic cfg p → ReachableAtomic cfg (resume1 p)
  | decode (results : decode_results) {p : irparams_t} :
      ReachableAtomic cfg p → ReachableAtomic cfg (decode1 cfg p results).2.1

/-- The buffer indices read by the bit loop of `decodeNEC1`, lines 197-212,
with `n` iterations left, in the order of the reads.  The one-space test and the
zero-space test each read `rawbuf[offset]` again. -/
def decodeBitsReads (cfg : Config) (rawbuf : Nat → Nat) : Nat → Nat → List Nat
  | 0, _ => []
  | n + 1, offset =>
    offset ::
      (if !MATCH_MARK1 cfg (rawbuf offset) cfg.NEC_BIT_MARK then []
      else
        (offset + 1) ::
          (if MATCH_SPACE1 cfg (rawbuf (offset + 1)) cfg.NEC_ONE_SPACE then
            decodeBitsReads cfg rawbuf n (offset + 1 + 1)
          else
            (offset + 1) ::
              (if MATCH_SPACE1 cfg (rawbuf (offset + 1)) cfg.NEC_ZERO_SPACE then
                decodeBitsReads cfg rawbuf n (offset + 1 + 1)
              else [])))

/-- The indices of `results->rawbuf` that `decodeNEC1`, lines 172-218, reads,
in the order of the reads; `&&` on line 181-183 evaluates its right operand
only when the left one holds. -/
def decodeNEC1Reads (cfg : Config) (irparams1 : irparams_t) (results : decode_results) :
    List Nat :=
  let offset := 1
  offset ::
    (if !MATCH_MARK1 cfg (results.rawbuf offset) cfg.NEC_HDR_MARK then []
    else
      let offset := offset + 1
      let repeatReads : List Nat :=
        if irparams1.rawlen = 4 then
          offset ::
            (if MATCH_SPACE1 cfg (results.rawbuf offset) cfg.NEC_RPT_SPACE then [offset + 1]
            else [])
        else []
      repeatReads ++
        (if irparams1.rawlen = 4 ∧
            MATCH_SPACE1 cfg (results.rawbuf offset) cfg.NEC_RPT_SPACE = true ∧
            MATCH_MARK1 cfg (results.rawbuf (offset + 1)) cfg.NEC_BIT_MARK = true then []
        else if irparams1.rawlen < 2 * NEC_BITS + 4 then []
        else
          offset ::
            (if !MATCH_SPACE1 cfg (results.rawbuf offset) cfg.NEC_HDR_SPACE then []
            else decodeBitsReads cfg results.rawbuf NEC_BITS (offset + 1))))

/-- The duration a sampler tick records, if it records one: the buffer index
that lines 108, 116 or 123 of the ISR write, and the level whose run has just
ended (`SPACE` for the gap recorded on leaving `STATE_IDLE`). -/
def recorded (cfg : Config) (irdata : Level) (irparams1 : irparams_t) : Option (Nat × Level) :=
  if irparams1.rawlen ≥ cfg.RAWBUF then none
  else
    match irparams1.rcvstate with
    | .STATE_IDLE =>
      if irdata = .MARK then
        if (irparams1.timer + 1) % cfg.timerMod < cfg.GAP_TICKS then none
        else some (0, Level.SPACE)
      else none
    | .STATE_MARK => if irdata = .SPACE then some (irparams1.rawlen, Level.MARK) else none
    | .STATE_SPACE => if irdata = .MARK then some (irparams1.rawlen, Level.SPACE) else none
    | .STATE_STOP => none

/-- The relation between the receiver state and the number of recorded entries
that the sampler maintains. -/
def SamplerInv (cfg : Config) (p : irparams_t) : Prop :=
  (p.rcvstate = .STATE_IDLE → p.rawlen = 0) ∧
  (p.rcvstate = .STATE_MARK → p.rawlen % 2 = 1) ∧
  (p.rcvstate = .STATE_SPACE → p.rawlen % 2 = 0 ∧ 2 ≤ p.rawlen) ∧
  (p.rcvstate = .STATE_STOP → 2 ≤ cfg.RAWBUF → 2 ≤ p.rawlen)

/-- What the specification means by an emission, written from its words:
"emit a mark" is enabling the modulated output and holding it for the given
number of microseconds, "emit a space" is disabling the output and holding it
for the given number of microseconds, and a duration that is not positive is
held for no time at all.  Enabling the carrier frequency is not an emission. -/
def specEmissionOps : Call → List PinOp
  | .mark1 us =>
    if us > 0 then [PinOp.TIMER_ENABLE_PWM, PinOp.delayMicroseconds us]
    else [PinOp.TIMER_ENABLE_PWM]
  | .space1 us =>
    if us > 0 then [PinOp.TIMER_DISABLE_PWM, PinOp.delayMicroseconds us]
    else [PinOp.TIMER_DISABLE_PWM]
  | .enableIROut1 _ => []

/-- The shape of a repeat code, tested on lines 176-183: four entries, with the
header mark, the repeat space and the bit mark at entries 1, 2 and 3. -/
def repeatShape (cfg : Config) (irparams1 : irparams_t) (results : decode_results) : Prop :=
  irparams1.rawlen = 4 ∧
    MATCH_MARK1 cfg (results.rawbuf 1) cfg.NEC_HDR_MARK = true ∧
    MATCH_SPACE1 cfg (results.rawbuf 2) cfg.NEC_RPT_SPACE = true ∧
    MATCH_MARK1 cfg (results.rawbuf 3) cfg.NEC_BIT_MARK = true

/-- A call of `resume1` during which the timer interrupt runs once, reading
`irdata`, between the store on line 146 and the store on line 147. -/
def interruptedResume (cfg : Config) (irdata : Level) (irparams1 : irparams_t) : irparams_t :=
  storeRawlen (ISR cfg irdata (storeRcvstate irparams1))

/-- The state reached when `resume1` is called on an armed, idle receiver whose
tick counter stands at 150 and the timer interrupt, reading a mark, runs between
the two stores of `resume1`. -/
def racedState : irparams_t :=
  storeRawlen (ISR refConfig Level.MARK
    (storeRcvstate (enableIRIn1 ⟨.STATE_STOP, 150, fun _ => 0, 0⟩)))

/-- The state reached from `racedState` after 102 further ticks that read a
space. -/
def racedStop : irparams_t :=
  runISR refConfig (List.replicate 102 Level.SPACE) racedState

/-! # Theorems -/

/-! ## Tolerance matchers -/

theorem MATCH_MARK1_iff (cfg : Config) (m d : Int) :
    MATCH_MARK1 cfg m d = true ↔
      cfg.TICKS_LOW (d + cfg.MARK_EXCESS) ≤ m ∧ m ≤ cfg.TICKS_HIGH (d + cfg.MARK_EXCESS) := by
  simp [MATCH_MARK1]

theorem MATCH_SPACE1_iff (cfg : Config) (m d : Int) :
    MATCH_SPACE1 cfg m d = true ↔
      cfg.TICKS_LOW (d - cfg.MARK_EXCESS) ≤ m ∧ m ≤ cfg.TICKS_HIGH (d - cfg.MARK_EXCESS) := by
  simp [MATCH_SPACE1]

theorem MATCH_MARK1_eq_false_iff (cfg : Config) (m d : Int) :
    MATCH_MARK1 cfg m d = false ↔
      m < cfg.TICKS_LOW (d + cfg.MARK_EXCESS) ∨ cfg.TICKS_HIGH (d + cfg.MARK_EXCESS) < m := by
  rw [← Bool.not_eq_true, MATCH_MARK1_iff]
  omega

theorem MATCH_SPACE1_eq_false_iff (cfg : Config) (m d : Int) :
    MATCH_SPACE1 cfg m d = false ↔
      m < cfg.TICKS_LOW (d - cfg.MARK_EXCESS) ∨ cfg.TICKS_HIGH (d - cfg.MARK_EXCESS) < m := by
  rw [← Bool.not_eq_true, MATCH_SPACE1_iff]
  omega

/-- C3: the mark matcher accepts a measured tick count `m` exactly when
`TICKS_LOW(d + MARK_EXCESS) ≤ m ≤ TICKS_HIGH(d + MARK_EXCESS)`, the space matcher
exactly when `TICKS_LOW(d - MARK_EXCESS) ≤ m ≤ TICKS_HIGH(d - MARK_EXCESS)`;
hence, the window `low ≤ high` being non-empty, the low bound and the high bound
both match, and one tick below the low bound or one tick above the high bound
never matches. -/
theorem tolerance_boundary (cfg : Config) (d m : Int) :
    (MATCH_MARK1 cfg m d = true ↔
      cfg.TICKS_LOW (d + cfg.MARK_EXCESS) ≤ m ∧ m ≤ cfg.TICKS_HIGH (d + cfg.MARK_EXCESS)) ∧
    (MATCH_SPACE1 cfg m d = true ↔
      cfg.TICKS_LOW (d - cfg.MARK_EXCESS) ≤ m ∧ m ≤ cfg.TICKS_HIGH (d - cfg.MARK_EXCESS)) ∧
    (cfg.TICKS_LOW (d + cfg.MARK_EXCESS) ≤ cfg.TICKS_HIGH (d + cfg.MARK_EXCESS) →
      MATCH_MARK1 cfg (cfg.TICKS_LOW (d + cfg.MARK_EXCESS)) d = true ∧
      MATCH_MARK1 cfg (cfg.TICKS_HIGH (d + cfg.MARK_EXCESS)) d = true) ∧
    MATCH_MARK1 cfg (cfg.TICKS_LOW (d + cfg.MARK_EXCESS) - 1) d = false ∧
    MATCH_MARK1 cfg (cfg.TICKS_HIGH (d + cfg.MARK_EXCESS) + 1) d = false ∧
    (cfg.TICKS_LOW (d - cfg.MARK_EXCESS) ≤ cfg.TICKS_HIGH (d - cfg.MARK_EXCESS) →
      MATCH_SPACE1 cfg (cfg.TICKS_LOW (d - cfg.MARK_EXCESS)) d = true ∧
      MATCH_SPACE1 cfg (cfg.TICKS_HIGH (d - cfg.MARK_EXCESS)) d = true) ∧
    MATCH_SPACE1 cfg (cfg.TICKS_LOW (d - cfg.MARK_EXCESS) - 1) d = false ∧
    MATCH_SPACE1 cfg (cfg.TICKS_HIGH (d - cfg.MARK_EXCESS) + 1) d = false := by
  refine ⟨MATCH_MARK1_iff cfg m d, MATCH_SPACE1_iff cfg m d, ?_, ?_, ?_, ?_, ?_, ?_⟩
  · intro h
    exact ⟨(MATCH_MARK1_iff ..).2 ⟨le_refl _, h⟩, (MATCH_MARK1_iff ..).2 ⟨h, le_refl _⟩⟩
  · exact (MATCH_MARK1_eq_false_iff ..).2 (Or.inl (by omega))
  · exact (MATCH_MARK1_eq_false_iff ..).2 (Or.inr (by omega))
  · intro h
    exact ⟨(MATCH_SPACE1_iff ..).2 ⟨le_refl _, h⟩, (MATCH_SPACE1_iff ..).2 ⟨h, le_refl _⟩⟩
  · exact (MATCH_SPACE1_eq_false_iff ..).2 (Or.inl (by omega))
  · exact (MATCH_SPACE1_eq_false_iff ..).2 (Or.inr (by omega))

/-- Witness for C3 at the reference configuration and the 560 µs bit mark /
bit space: the mark window is 9..17 ticks, the space window 6..12 ticks. -/
theorem tolerance_boundary_witness :
    (MATCH_MARK1 refConfig 9 560 = true ∧ MATCH_MARK1 refConfig 17 560 = true) ∧
    MATCH_MARK1 refConfig 8 560 = false ∧ MATCH_MARK1 refConfig 18 560 = false ∧
    (MATCH_SPACE1 refConfig 6 560 = true ∧ MATCH_SPACE1 refConfig 12 560 = true) ∧
    MATCH_SPACE1 refConfig 5 560 = false ∧ MATCH_SPACE1 refConfig 13 560 = false :=
  have h := tolerance_boundary refConfig 560 11
  ⟨h.2.2.1 (by decide), h.2.2.2.1, h.2.2.2.2.1, h.2.2.2.2.2.1 (by decide),
    h.2.2.2.2.2.2.1, h.2.2.2.2.2.2.2⟩

/-! ## Decoder: repeat path, truncated captures, readiness -/

/-- C4: for every capture with `rawlen = 4` whose entry 1 matches the header
mark, entry 2 the repeat space and entry 3 the bit mark, `decodeNEC1` returns
`DECODED` with `bits = 0`, `value = REPEAT` and `decode_type = NEC`; entry 0 and
the slots from index 4 on are unconstrained. -/
theorem repeat_fast_path (cfg : Config) (irparams1 : irparams_t) (results : decode_results)
    (hlen : irparams1.rawlen = 4)
    (h1 : MATCH_MARK1 cfg (results.rawbuf 1) cfg.NEC_HDR_MARK = true)
    (h2 : MATCH_SPACE1 cfg (results.rawbuf 2) cfg.NEC_RPT_SPACE = true)
    (h3 : MATCH_MARK1 cfg (results.rawbuf 3) cfg.NEC_BIT_MARK = true) :
    decodeNEC1 cfg irparams1 results =
      (DECODED, { results with bits := 0, value := cfg.REPEAT, decode_type := cfg.NEC }) := by
  simp [decodeNEC1, h1, h2, h3, hlen]

/-- Witness for C4: the four-entry repeat capture under the reference
configuration, with junk in slot 0 and in the slots from index 4 on. -/
theorem repeat_fast_path_witness :
    decodeNEC1 refConfig repeatCapture { staleResults with rawbuf := repeatCapture.rawbuf } =
      (DECODED, { staleResults with
        rawbuf := repeatCapture.rawbuf, bits := 0, value := 0xffffffff, decode_type := 1 }) :=
  repeat_fast_path refConfig repeatCapture { staleResults with rawbuf := repeatCapture.rawbuf }
    rfl (by decide) (by decide) (by decide)

theorem decodeNEC1_short (cfg : Config) (irparams1 : irparams_t) (results : decode_results)
    (hlen : irparams1.rawlen < 68)
    (hshape : ¬ (irparams1.rawlen = 4 ∧
      MATCH_MARK1 cfg (results.rawbuf 1) cfg.NEC_HDR_MARK = true ∧
      MATCH_SPACE1 cfg (results.rawbuf 2) cfg.NEC_RPT_SPACE = true ∧
      MATCH_MARK1 cfg (results.rawbuf 3) cfg.NEC_BIT_MARK = true)) :
    decodeNEC1 cfg irparams1 results = (ERR, results) := by
  unfold decodeNEC1
  by_cases h1 : MATCH_MARK1 cfg (results.rawbuf 1) cfg.NEC_HDR_MARK = true
  · have hrep : ¬ (irparams1.rawlen = 4 ∧
        MATCH_SPACE1 cfg (results.rawbuf 2) cfg.NEC_RPT_SPACE = true ∧
        MATCH_MARK1 cfg (results.rawbuf 3) cfg.NEC_BIT_MARK = true) :=
      fun h => hshape ⟨h.1, h1, h.2.1, h.2.2⟩
    have hlt : irparams1.rawlen < 2 * NEC_BITS + 4 := hlen
    simp only [h1, Bool.not_true, Bool.false_eq_true, if_false, Nat.reduceAdd, hrep, hlt, if_true]
  · simp [h1]

/-- C5: a capture with fewer than `2 * NEC_BITS + 4 = 68` entries that does not
have the repeat shape makes `decodeNEC1` return `ERR` whatever the buffer holds,
and the results record is returned as it was: no value is reported. -/
theorem truncated_capture (cfg : Config) (irparams1 : irparams_t) (results : decode_results)
    (hlen : irparams1.rawlen < 68)
    (hshape : ¬ (irparams1.rawlen = 4 ∧
      MATCH_MARK1 cfg (results.rawbuf 1) cfg.NEC_HDR_MARK = true ∧
      MATCH_SPACE1 cfg (results.rawbuf 2) cfg.NEC_RPT_SPACE = true ∧
      MATCH_MARK1 cfg (results.rawbuf 3) cfg.NEC_BIT_MARK = true)) :
    2 * NEC_BITS + 4 = 68 ∧ decodeNEC1 cfg irparams1 results = (ERR, results) :=
  ⟨rfl, decodeNEC1_short cfg irparams1 results hlen hshape⟩

/-- Witness for C5: a 67-entry capture with a perfect header and perfect bits
is still rejected, and the stale results record comes back untouched. -/
theorem truncated_capture_witness :
    decodeNEC1 refConfig
        { rcvstate := .STATE_STOP, timer := 0, rawlen := 67,
          rawbuf := fun i => if i = 1 then 180 else if i = 2 then 90 else 11 }
        { staleResults with rawbuf := fun i => if i = 1 then 180 else if i = 2 then 90 else 11 } =
      (ERR, { staleResults with
        rawbuf := fun i => if i = 1 then 180 else if i = 2 then 90 else 11 }) :=
  (truncated_capture refConfig _ _ (by decide) (by decide)).2

/-- C8: when the receiver state is not `STATE_STOP`, `decode1` returns `ERR`
for any buffer contents and hands back `irparams1` (state, `rawlen`, tick
counter, buffer) exactly as it was. -/
theorem decode1_not_ready (cfg : Config) (irparams1 : irparams_t) (results : decode_results)
    (hstate : irparams1.rcvstate ≠ .STATE_STOP) :
    (decode1 cfg irparams1 results).1 = ERR ∧
    (∀ buf : Nat → Nat, (decode1 cfg { irparams1 with rawbuf := buf } results).1 = ERR) ∧
    (decode1 cfg irparams1 results).2.1.rcvstate = irparams1.rcvstate ∧
    (decode1 cfg irparams1 results).2.1.rawlen = irparams1.rawlen ∧
    (decode1 cfg irparams1 results).2.1.timer = irparams1.timer ∧
    (decode1 cfg irparams1 results).2.1.rawbuf = irparams1.rawbuf := by
  simp [decode1, hstate]

/-- Witness for C8: a receiver still timing a space, holding a capture that
would decode as a repeat, is reported as not ready. -/
theorem decode1_not_ready_witness :
    (decode1 refConfig { repeatCapture with rcvstate := .STATE_SPACE } staleResults).1 = ERR :=
  (decode1_not_ready refConfig { repeatCapture with rcvstate := .STATE_SPACE } staleResults
    (by decide)).1

theorem decodeNEC1_status (cfg : Config) (irparams1 : irparams_t) (results : decode_results) :
    (decodeNEC1 cfg irparams1 results).1 = ERR ∨
      (decodeNEC1 cfg irparams1 results).1 = DECODED := by
  unfold decodeNEC1
  simp only []
  split_ifs
  · exact Or.inl rfl
  · exact Or.inr rfl
  · exact Or.inl rfl
  · exact Or.inl rfl
  · split
    · exact Or.inl rfl
    · exact Or.inr rfl

/-- C9: in `STATE_STOP`, `decode1` leaves the receiver in `STATE_IDLE` with
`rawlen = 0` if and only if the NEC decode of the buffer fails, and then returns
`ERR`; when the NEC decode succeeds it returns `DECODED`, the state stays
`STATE_STOP` and `rawlen` is unchanged.  The buffer is the same afterwards in
both cases. -/
theorem decode1_restart_iff_failure (cfg : Config) (irparams1 : irparams_t)
    (results : decode_results) (hstate : irparams1.rcvstate = .STATE_STOP) :
    (((decode1 cfg irparams1 results).2.1.rcvstate = .STATE_IDLE ∧
        (decode1 cfg irparams1 results).2.1.rawlen = 0) ↔
      (decodeNEC1 cfg irparams1
        { results with rawbuf := irparams1.rawbuf, rawlen := irparams1.rawlen }).1 = ERR) ∧
    ((decodeNEC1 cfg irparams1
        { results with rawbuf := irparams1.rawbuf, rawlen := irparams1.rawlen }).1 = ERR →
      (decode1 cfg irparams1 results).1 = ERR) ∧
    ((decodeNEC1 cfg irparams1
        { results with rawbuf := irparams1.rawbuf, rawlen := irparams1.rawlen }).1 = DECODED →
      (decode1 cfg irparams1 results).1 = DECODED ∧
      (decode1 cfg irparams1 results).2.1.rcvstate = .STATE_STOP ∧
      (decode1 cfg irparams1 results).2.1.rawlen = irparams1.rawlen) ∧
    (decode1 cfg irparams1 results).2.1.rawbuf = irparams1.rawbuf := by
  rcases decodeNEC1_status cfg irparams1
    { results with rawbuf := irparams1.rawbuf, rawlen := irparams1.rawlen } with h | h
  · simp [decode1, hstate, h, resume1, ERR, DECODED]
  · simp [decode1, hstate, h, resume1, ERR, DECODED]

/-- Witness for C9: the stopped repeat capture decodes, so the receiver stays
stopped with its four entries. -/
theorem decode1_restart_iff_failure_witness :
    (decode1 refConfig repeatCapture staleResults).1 = DECODED ∧
    (decode1 refConfig repeatCapture staleResults).2.1.rcvstate = .STATE_STOP ∧
    (decode1 refConfig repeatCapture staleResults).2.1.rawlen = 4 :=
  (decode1_restart_iff_failure refConfig repeatCapture staleResults rfl).2.2.1 (by decide)

/-! ## Sampler: single ticks and the capacity invariant -/

/-- C7: in `STATE_IDLE` with `rawlen < RAWBUF`, a tick that reads a mark while
the counter after this tick's increment is below `GAP_TICKS` leaves the state
`STATE_IDLE`, sets the counter to 0 and leaves `rawlen` and the buffer as they
were. -/
theorem idle_noise_rejection (cfg : Config) (irparams1 : irparams_t)
    (hstate : irparams1.rcvstate = .STATE_IDLE) (hlen : irparams1.rawlen < cfg.RAWBUF)
    (hgap : (irparams1.timer + 1) % cfg.timerMod < cfg.GAP_TICKS) :
    (ISR cfg .MARK irparams1).rcvstate = .STATE_IDLE ∧
    (ISR cfg .MARK irparams1).timer = 0 ∧
    (ISR cfg .MARK irparams1).rawlen = irparams1.rawlen ∧
    (ISR cfg .MARK irparams1).rawbuf = irparams1.rawbuf := by
  have hlen' : ¬ cfg.RAWBUF ≤ irparams1.rawlen := by omega
  simp [ISR, hstate, hlen', hgap]

/-- Witness for C7: an idle receiver that has counted 41 ticks sees a mark on
tick 42, short of the 100-tick gap. -/
theorem idle_noise_rejection_witness :
    (ISR refConfig .MARK
        { rcvstate := .STATE_IDLE, timer := 41, rawbuf := fun _ => 5, rawlen := 0 }).rcvstate =
      .STATE_IDLE ∧
    (ISR refConfig .MARK
        { rcvstate := .STATE_IDLE, timer := 41, rawbuf := fun _ => 5, rawlen := 0 }).timer = 0 :=
  have h := idle_noise_rejection refConfig
    { rcvstate := .STATE_IDLE, timer := 41, rawbuf := fun _ => 5, rawlen := 0 }
    rfl (by decide) (by decide)
  ⟨h.1, h.2.1⟩

theorem ISR_full (cfg : Config) (irdata : Level) (p : irparams_t)
    (hfull : cfg.RAWBUF ≤ p.rawlen) :
    (ISR cfg irdata p).rcvstate = .STATE_STOP ∧ (ISR cfg irdata p).rawlen = p.rawlen ∧
      (ISR cfg irdata p).rawbuf = p.rawbuf := by
  cases irdata <;> simp [ISR, hfull]

theorem ISR_capacity (cfg : Config) (irdata : Level) (p : irparams_t) (orig : Nat → Nat)
    (hlen : p.rawlen ≤ cfg.RAWBUF) (hbuf : ∀ i, cfg.RAWBUF ≤ i → p.rawbuf i = orig i) :
    (ISR cfg irdata p).rawlen ≤ cfg.RAWBUF ∧
      ∀ i, cfg.RAWBUF ≤ i → (ISR cfg irdata p).rawbuf i = orig i := by
  by_cases hfull : cfg.RAWBUF ≤ p.rawlen
  · obtain ⟨-, h2, h3⟩ := ISR_full cfg irdata p hfull
    rw [h2, h3]
    exact ⟨hlen, hbuf⟩
  · have hlt : p.rawlen < cfg.RAWBUF := by omega
    have hw : ∀ v i, cfg.RAWBUF ≤ i → write p.rawbuf p.rawlen v i = orig i := by
      intro v i hi
      have : i ≠ p.rawlen := by omega
      simp [write, this, hbuf i hi]
    have hw0 : ∀ v i, cfg.RAWBUF ≤ i → write p.rawbuf 0 v i = orig i := by
      intro v i hi
      have : i ≠ 0 := by omega
      simp [write, this, hbuf i hi]
    rcases hs : p.rcvstate <;> cases irdata <;> simp only [ISR, hs, hfull, ge_iff_le, if_false,
      if_true, reduceCtorEq] <;> (try split_ifs) <;>
      first
        | exact ⟨hlen, hbuf⟩
        | exact ⟨by show 0 + 1 ≤ cfg.RAWBUF; omega, hw0 _⟩
        | exact ⟨by show p.rawlen + 1 ≤ cfg.RAWBUF; omega, hw _⟩

theorem runISR_capacity (cfg : Config) (samples : List Level) (p : irparams_t)
    (orig : Nat → Nat) (hlen : p.rawlen ≤ cfg.RAWBUF)
    (hbuf : ∀ i, cfg.RAWBUF ≤ i → p.rawbuf i = orig i) :
    (runISR cfg samples p).rawlen ≤ cfg.RAWBUF ∧
      ∀ i, cfg.RAWBUF ≤ i → (runISR cfg samples p).rawbuf i = orig i := by
  induction samples generalizing p with
  | nil => exact ⟨hlen, hbuf⟩
  | cons irdata rest ih =>
    obtain ⟨h1, h2⟩ := ISR_capacity cfg irdata p orig hlen hbuf
    exact ih (ISR cfg irdata p) h1 h2

/-- C6: from the armed state (`enableIRIn1`), after any sequence of sampler
ticks with any pin levels, `rawlen ≤ RAWBUF` and every memory slot at an index
`≥ RAWBUF` still holds what it held before; and a tick that begins with
`rawlen = RAWBUF` ends in `STATE_STOP` with `rawlen = RAWBUF` and the buffer
unchanged, whatever the state and the pin level were. -/
theorem buffer_capacity (cfg : Config) (irparams1 : irparams_t) (samples : List Level) :
    (runISR cfg samples (enableIRIn1 irparams1)).rawlen ≤ cfg.RAWBUF ∧
    (∀ i, cfg.RAWBUF ≤ i →
      (runISR cfg samples (enableIRIn1 irparams1)).rawbuf i = irparams1.rawbuf i) ∧
    (∀ (p : irparams_t) (irdata : Level), p.rawlen = cfg.RAWBUF →
      (ISR cfg irdata p).rcvstate = .STATE_STOP ∧ (ISR cfg irdata p).rawlen = cfg.RAWBUF ∧
      (ISR cfg irdata p).rawbuf = p.rawbuf) := by
  obtain ⟨h1, h2⟩ := runISR_capacity cfg samples (enableIRIn1 irparams1) irparams1.rawbuf
    (by simp [enableIRIn1]) (by simp [enableIRIn1])
  refine ⟨h1, h2, ?_⟩
  intro p irdata hp
  obtain ⟨a, b, c⟩ := ISR_full cfg irdata p (by omega)
  exact ⟨a, by rw [b, hp], c⟩

/-! ## Transmitter -/

theorem and_TOPBIT_ne_zero (data : Nat) : data &&& TOPBIT ≠ 0 ↔ msbBit data 0 = true := by
  have h : TOPBIT = 2 ^ 31 := by norm_num [TOPBIT]
  rw [h, Nat.and_two_pow]
  cases hb : data.testBit 31 <;> simp [msbBit, hb]

theorem msbBit_shift (data i : Nat) :
    msbBit ((data <<< 1) % LONG_MOD) i = msbBit data (i + 1) := by
  unfold msbBit LONG_MOD
  rw [Nat.testBit_mod_two_pow, Nat.testBit_shiftLeft]
  by_cases h : i + 1 < 32
  · have h1 : i < 32 := by omega
    have h2 : 31 - i < 32 := by omega
    have h3 : 31 - i ≥ 1 := by omega
    have h4 : 31 - i - 1 = 31 - (i + 1) := by omega
    simp [h, h1, h2, h3, h4]
  · by_cases h1 : i < 32
    · have h3 : ¬ (31 - i ≥ 1) := by omega
      simp [h, h3]
    · simp [h, h1]

theorem sendBits_eq (cfg : Config) (n data : Nat) :
    sendBits cfg n data = (List.range n).flatMap (fun i => bitEmission cfg (msbBit data i)) := by
  induction n generalizing data with
  | zero => rfl
  | succ n ih =>
    rw [List.range_succ_eq_map, List.flatMap_cons, List.flatMap_map, sendBits, ih]
    congr 1
    · by_cases hb : msbBit data 0 = true
      · simp [(and_TOPBIT_ne_zero data).2 hb, bitEmission, hb]
      · have hz : ¬ (data &&& TOPBIT ≠ 0) := fun h => hb ((and_TOPBIT_ne_zero data).1 h)
        simp only [hz, if_false, bitEmission]
        simp [hb]
    · congr 1
      funext i
      rw [msbBit_shift]

theorem filter_bits (cfg : Config) (data n : Nat) :
    List.filter (fun c => match c with
        | Call.enableIROut1 _ => false
        | _ => true)
      ((List.range n).flatMap (fun i => bitEmission cfg (msbBit data i))) =
      (List.range n).flatMap (fun i => bitEmission cfg (msbBit data i)) := by
  apply List.filter_eq_self.2
  intro c hc
  rcases List.mem_flatMap.1 hc with ⟨i, -, hi⟩
  simp only [bitEmission, List.mem_cons, List.mem_singleton, List.not_mem_nil, or_false] at hi
  rcases hi with rfl | rfl <;> rfl

theorem length_bits (cfg : Config) (data n : Nat) :
    ((List.range n).flatMap (fun i => bitEmission cfg (msbBit data i))).length = 2 * n := by
  induction n with
  | zero => rfl
  | succ n ih =>
    rw [List.range_succ, List.flatMap_append, List.length_append, ih]
    simp [bitEmission]
    omega

theorem alternating_pairs (l : List Call) (f : Nat → List Call) (n : Nat)
    (hf : ∀ i, ∃ a b, f i = [Call.mark1 a, Call.space1 b])
    (hl : ∃ a b, l = [Call.mark1 a, Call.space1 b]) (i : Nat) (c : Call)
    (hc : ((List.range n).flatMap f ++ l)[i]? = some c) :
    c.isMark = decide (i % 2 = 0) ∧ c.isSpace = decide (i % 2 = 1) := by
  induction n generalizing i f with
  | zero =>
    obtain ⟨a, b, rfl⟩ := hl
    match i, hc with
    | 0, hc =>
      simp at hc
      subst hc
      exact ⟨rfl, rfl⟩
    | 1, hc =>
      simp at hc
      subst hc
      exact ⟨rfl, rfl⟩
    | i + 2, hc => simp at hc
  | succ n ih =>
    rw [List.range_succ_eq_map, List.flatMap_cons, List.flatMap_map] at hc
    obtain ⟨a, b, hab⟩ := hf 0
    rw [hab] at hc
    match i, hc with
    | 0, hc =>
      simp at hc
      subst hc
      exact ⟨rfl, rfl⟩
    | 1, hc =>
      simp at hc
      subst hc
      exact ⟨rfl, rfl⟩
    | i + 2, hc =>
      have hc' : ((List.range n).flatMap (fun j => f (Nat.succ j)) ++ l)[i]? = some c := by
        simpa using hc
      have := ih (fun j => f (Nat.succ j)) (fun j => hf _) i hc'
      have e0 : (i + 2) % 2 = i % 2 := by omega
      rw [e0]
      exact this

theorem exec_eq_specEmissionOps (c : Call) (hc : c.isMark = true ∨ c.isSpace = true) :
    c.exec = specEmissionOps c := by
  cases c with
  | enableIROut1 khz => simp [Call.isMark, Call.isSpace] at hc
  | mark1 time =>
    simp only [Call.exec, mark1, specEmissionOps]
    split <;> rfl
  | space1 time =>
    simp only [Call.exec, space1, specEmissionOps]
    split <;> rfl

theorem expectedEmissions_marks_spaces (cfg : Config) (data n : Nat) (c : Call)
    (hc : c ∈ expectedEmissions cfg data n) : c.isMark = true ∨ c.isSpace = true := by
  unfold expectedEmissions at hc
  simp only [List.mem_append, List.mem_cons, List.mem_singleton, List.not_mem_nil, or_false,
    List.mem_flatMap, bitEmission] at hc
  rcases hc with ((rfl | rfl) | ⟨i, -, (rfl | rfl)⟩) | (rfl | rfl)
  · exact Or.inl rfl
  · exact Or.inr rfl
  · exact Or.inl rfl
  · exact Or.inr rfl
  · exact Or.inl rfl
  · exact Or.inr rfl

theorem sendNEC1_eq_cons (cfg : Config) (data : Nat) (nbits : Int) :
    sendNEC1 cfg data nbits =
      Call.enableIROut1 38 :: expectedEmissions cfg data nbits.toNat := by
  unfold sendNEC1 expectedEmissions
  rw [sendBits_eq]
  rfl

/-- C10: for every data word and every `nbits ≥ 0`, the mark and space calls of
`sendNEC1` are, in order, `mark1(NEC_HDR_MARK)`, `space1(NEC_HDR_SPACE)`, then
for each of the `nbits` bits taken most-significant first `mark1(NEC_BIT_MARK)`
followed by `space1(NEC_ONE_SPACE)` for a 1 and `space1(NEC_ZERO_SPACE)` for a
0, then `mark1(NEC_BIT_MARK)` and `space1(0)`; there are `2 * nbits + 4` of
them, marks at the even positions and spaces at the odd ones, and `space1(0)`
only disables the output, without a delay.  What `sendNEC1` does to the output
hardware, through the bodies of `enableIROut1`, `mark1` and `space1`, is the
38 kHz set-up followed, emission by emission, by what the specification calls
emitting: the modulated output enabled for a mark and disabled for a space, and
held for the emission's duration. -/
theorem sendNEC1_emissions (cfg : Config) (data : Nat) (nbits : Int) (hn : 0 ≤ nbits) :
    emissions (sendNEC1 cfg data nbits) = expectedEmissions cfg data nbits.toNat ∧
    ((emissions (sendNEC1 cfg data nbits)).length : Int) = 2 * nbits + 4 ∧
    (∀ (i : Nat) (c : Call), (emissions (sendNEC1 cfg data nbits))[i]? = some c →
      c.isMark = decide (i % 2 = 0) ∧ c.isSpace = decide (i % 2 = 1)) ∧
    (emissions (sendNEC1 cfg data nbits)).getLast? = some (Call.space1 0) ∧
    (Call.space1 0).exec = [PinOp.TIMER_DISABLE_PWM] ∧
    (sendNEC1 cfg data nbits).flatMap Call.exec =
      [PinOp.TIMER_DISABLE_INTR, PinOp.pinModeOutput, PinOp.digitalWriteLow,
        PinOp.TIMER_CONFIG_KHZ 38] ++
      (expectedEmissions cfg data nbits.toNat).flatMap specEmissionOps ∧
    (∀ us : Int, 0 < us →
      (Call.mark1 us).exec = [PinOp.TIMER_ENABLE_PWM, PinOp.delayMicroseconds us] ∧
      (Call.space1 us).exec = [PinOp.TIMER_DISABLE_PWM, PinOp.delayMicroseconds us]) := by
  have heq : emissions (sendNEC1 cfg data nbits) = expectedEmissions cfg data nbits.toNat := by
    unfold emissions sendNEC1 expectedEmissions
    rw [sendBits_eq, List.filter_append, List.filter_append, filter_bits]
    rfl
  refine ⟨heq, ?_, ?_, ?_, rfl, ?_, ?_⟩
  · rw [heq]
    unfold expectedEmissions
    simp only [List.length_append, length_bits, List.length_cons, List.length_nil]
    push_cast
    rw [Int.toNat_of_nonneg hn]
    ring
  · intro i c hc
    rw [heq] at hc
    unfold expectedEmissions at hc
    have hc' : ((List.range (nbits.toNat + 1)).flatMap
        (fun j => if j = 0 then [Call.mark1 cfg.NEC_HDR_MARK, Call.space1 cfg.NEC_HDR_SPACE]
          else bitEmission cfg (msbBit data (j - 1))) ++
        [Call.mark1 cfg.NEC_BIT_MARK, Call.space1 0])[i]? = some c := by
      rw [List.range_succ_eq_map, List.flatMap_cons, List.flatMap_map]
      simpa using hc
    refine alternating_pairs _ _ _ ?_ ⟨_, _, rfl⟩ i c hc'
    intro j
    by_cases hj : j = 0
    · exact ⟨cfg.NEC_HDR_MARK, cfg.NEC_HDR_SPACE, by simp [hj]⟩
    · exact ⟨cfg.NEC_BIT_MARK,
        if msbBit data (j - 1) = true then cfg.NEC_ONE_SPACE else cfg.NEC_ZERO_SPACE,
        by simp [hj, bitEmission]⟩
  · rw [heq]
    unfold expectedEmissions
    rw [List.getLast?_append]
    rfl
  · rw [sendNEC1_eq_cons, List.flatMap_cons]
    congr 1
    apply List.flatMap_congr
    intro c hc
    exact exec_eq_specEmissionOps c (expectedEmissions_marks_spaces cfg data _ c hc)
  · intro us hus
    simp [Call.exec, mark1, space1, hus]

/-- Witness for C10: the eight emissions of a two-bit transmission of a word
whose two top bits are 1 and 0, and what they do to the output hardware. -/
theorem sendNEC1_emissions_witness :
    emissions (sendNEC1 refConfig 0x80000000 2) =
      [Call.mark1 9000, Call.space1 4500, Call.mark1 560, Call.space1 1690,
        Call.mark1 560, Call.space1 560, Call.mark1 560, Call.space1 0] ∧
    (sendNEC1 refConfig 0x80000000 2).flatMap Call.exec =
      [PinOp.TIMER_DISABLE_INTR, PinOp.pinModeOutput, PinOp.digitalWriteLow,
        PinOp.TIMER_CONFIG_KHZ 38,
        PinOp.TIMER_ENABLE_PWM, PinOp.delayMicroseconds 9000,
        PinOp.TIMER_DISABLE_PWM, PinOp.delayMicroseconds 4500,
        PinOp.TIMER_ENABLE_PWM, PinOp.delayMicroseconds 560,
        PinOp.TIMER_DISABLE_PWM, PinOp.delayMicroseconds 1690,
        PinOp.TIMER_ENABLE_PWM, PinOp.delayMicroseconds 560,
        PinOp.TIMER_DISABLE_PWM, PinOp.delayMicroseconds 560,
        PinOp.TIMER_ENABLE_PWM, PinOp.delayMicroseconds 560,
        PinOp.TIMER_DISABLE_PWM] :=
  have h := sendNEC1_emissions refConfig 0x80000000 2 (by decide)
  ⟨h.1.trans (by decide), h.2.2.2.2.2.1.trans (by decide)⟩

/-! ## Decoder: the full path -/

theorem shiftLeft_one_or_one (d : Nat) : (d <<< 1) ||| 1 = 2 * d + 1 := by
  have h := Nat.mul_add_lt_is_or (i := 1) (b := 1) (by decide) d
  rw [Nat.shiftLeft_eq]
  simp only [pow_one] at h ⊢
  rw [Nat.mul_comm d 2, ← h]

theorem msbFirstValue_succ_front (b : Nat → Bool) (n : Nat) :
    msbFirstValue b (n + 1) =
      (if b 0 then 2 ^ n else 0) + msbFirstValue (fun i => b (i + 1)) n := by
  unfold msbFirstValue
  rw [Finset.sum_range_succ', Nat.add_comm]
  congr 1
  apply Finset.sum_congr rfl
  intro i _
  have : n + 1 - 1 - (i + 1) = n - 1 - i := by omega
  rw [this]

theorem msbFirstValue_succ_back (b : Nat → Bool) (n : Nat) :
    msbFirstValue b (n + 1) = 2 * msbFirstValue b n + (if b n then 1 else 0) := by
  unfold msbFirstValue
  rw [Finset.sum_range_succ, Finset.mul_sum]
  congr 1
  · apply Finset.sum_congr rfl
    intro i hi
    have hi' : i < n := Finset.mem_range.1 hi
    have : n + 1 - 1 - i = (n - 1 - i) + 1 := by omega
    rw [this, pow_succ]
    split <;> omega
  · simp

theorem msbFirstValue_lt (b : Nat → Bool) (n : Nat) : msbFirstValue b n < 2 ^ n := by
  induction n with
  | zero => simp [msbFirstValue]
  | succ n ih =>
    rw [msbFirstValue_succ_back, pow_succ]
    split <;> omega

theorem msbFirstValue_congr (b c : Nat → Bool) (n : Nat) (h : ∀ i, i < n → b i = c i) :
    msbFirstValue b n = msbFirstValue c n := by
  unfold msbFirstValue
  apply Finset.sum_congr rfl
  intro i hi
  rw [h i (Finset.mem_range.1 hi)]

theorem decodeBits_eq (cfg : Config) (rawbuf : Nat → Nat) (n offset data : Nat)
    (hdata : data < LONG_MOD)
    (hbits : ∀ i, i < n →
      MATCH_MARK1 cfg (rawbuf (offset + 2 * i)) cfg.NEC_BIT_MARK = true ∧
      (MATCH_SPACE1 cfg (rawbuf (offset + 2 * i + 1)) cfg.NEC_ONE_SPACE = true ∨
        MATCH_SPACE1 cfg (rawbuf (offset + 2 * i + 1)) cfg.NEC_ZERO_SPACE = true)) :
    decodeBits cfg rawbuf n offset data =
      some ((data * 2 ^ n + msbFirstValue
        (fun i => MATCH_SPACE1 cfg (rawbuf (offset + 2 * i + 1)) cfg.NEC_ONE_SPACE) n) %
          LONG_MOD) := by
  induction n generalizing offset data with
  | zero => simp [decodeBits, msbFirstValue, Nat.mod_eq_of_lt hdata]
  | succ n ih =>
    have h0 := hbits 0 (Nat.succ_pos n)
    simp only [Nat.mul_zero, Nat.add_zero] at h0
    have hrest : ∀ i, i < n →
        MATCH_MARK1 cfg (rawbuf (offset + 1 + 1 + 2 * i)) cfg.NEC_BIT_MARK = true ∧
        (MATCH_SPACE1 cfg (rawbuf (offset + 1 + 1 + 2 * i + 1)) cfg.NEC_ONE_SPACE = true ∨
          MATCH_SPACE1 cfg (rawbuf (offset + 1 + 1 + 2 * i + 1)) cfg.NEC_ZERO_SPACE = true) := by
      intro i hi
      have := hbits (i + 1) (by omega)
      have e : offset + 2 * (i + 1) = offset + 1 + 1 + 2 * i := by omega
      rwa [e] at this
    have hfun : (fun i => MATCH_SPACE1 cfg (rawbuf (offset + 2 * (i + 1) + 1)) cfg.NEC_ONE_SPACE) =
        (fun i => MATCH_SPACE1 cfg (rawbuf (offset + 1 + 1 + 2 * i + 1)) cfg.NEC_ONE_SPACE) := by
      funext i
      have e : offset + 2 * (i + 1) = offset + 1 + 1 + 2 * i := by omega
      rw [e]
    have hM : 0 < LONG_MOD := by norm_num [LONG_MOD]
    rw [msbFirstValue_succ_front, hfun]
    simp only [Nat.mul_zero, Nat.add_zero]
    unfold decodeBits
    simp only [h0.1, Bool.not_true, Bool.false_eq_true, if_false]
    by_cases hone : MATCH_SPACE1 cfg (rawbuf (offset + 1)) cfg.NEC_ONE_SPACE = true
    · simp only [hone, if_true]
      rw [ih _ _ (Nat.mod_lt _ hM) hrest, shiftLeft_one_or_one]
      congr 1
      have h1 : ((2 * data + 1) % LONG_MOD) * 2 ^ n ≡ (2 * data + 1) * 2 ^ n [MOD LONG_MOD] :=
        (Nat.mod_modEq _ _).mul_right _
      have h2 := h1.add_right (msbFirstValue
        (fun i => MATCH_SPACE1 cfg (rawbuf (offset + 1 + 1 + 2 * i + 1)) cfg.NEC_ONE_SPACE) n)
      unfold Nat.ModEq at h2
      rw [h2]
      congr 1
      rw [pow_succ]
      ring
    · have hzero := h0.2.resolve_left hone
      simp only [hone, Bool.false_eq_true, if_false, hzero, if_true]
      rw [ih _ _ (Nat.mod_lt _ hM) hrest, Nat.shiftLeft_eq]
      congr 1
      have h1 : ((data * 2 ^ 1) % LONG_MOD) * 2 ^ n ≡ (data * 2 ^ 1) * 2 ^ n [MOD LONG_MOD] :=
        (Nat.mod_modEq _ _).mul_right _
      have h2 := h1.add_right (msbFirstValue
        (fun i => MATCH_SPACE1 cfg (rawbuf (offset + 1 + 1 + 2 * i + 1)) cfg.NEC_ONE_SPACE) n)
      unfold Nat.ModEq at h2
      rw [h2]
      congr 1
      rw [pow_succ]
      ring

theorem decodeNEC1_of_match (cfg : Config) (irparams1 : irparams_t) (results : decode_results)
    (hlen : irparams1.rawlen ≥ 2 * NEC_BITS + 4)
    (h1 : MATCH_MARK1 cfg (results.rawbuf 1) cfg.NEC_HDR_MARK = true)
    (h2 : MATCH_SPACE1 cfg (results.rawbuf 2) cfg.NEC_HDR_SPACE = true)
    (hbits : ∀ i, i < 32 →
      MATCH_MARK1 cfg (results.rawbuf (3 + 2 * i)) cfg.NEC_BIT_MARK = true ∧
      (MATCH_SPACE1 cfg (results.rawbuf (4 + 2 * i)) cfg.NEC_ONE_SPACE = true ∨
        MATCH_SPACE1 cfg (results.rawbuf (4 + 2 * i)) cfg.NEC_ZERO_SPACE = true)) :
    decodeNEC1 cfg irparams1 results =
      (DECODED, { results with
        bits := 32
        value := msbFirstValue (classifiedBit cfg results.rawbuf) 32
        decode_type := cfg.NEC }) := by
  have hlen' : ¬ irparams1.rawlen < 2 * NEC_BITS + 4 := by omega
  have hne : irparams1.rawlen ≠ 4 := by
    have : 2 * NEC_BITS + 4 = 68 := rfl
    omega
  have hb : ∀ i, i < NEC_BITS →
      MATCH_MARK1 cfg (results.rawbuf (1 + 1 + 1 + 2 * i)) cfg.NEC_BIT_MARK = true ∧
      (MATCH_SPACE1 cfg (results.rawbuf (1 + 1 + 1 + 2 * i + 1)) cfg.NEC_ONE_SPACE = true ∨
        MATCH_SPACE1 cfg (results.rawbuf (1 + 1 + 1 + 2 * i + 1)) cfg.NEC_ZERO_SPACE = true) := by
    intro i hi
    have e1 : 1 + 1 + 1 + 2 * i = 3 + 2 * i := by omega
    have e2 : 3 + 2 * i + 1 = 4 + 2 * i := by omega
    rw [e1, e2]
    exact hbits i hi
  have hdec := decodeBits_eq cfg results.rawbuf NEC_BITS (1 + 1 + 1) 0
    (by norm_num [LONG_MOD]) hb
  have hfun : (fun i => MATCH_SPACE1 cfg (results.rawbuf (1 + 1 + 1 + 2 * i + 1))
      cfg.NEC_ONE_SPACE) = classifiedBit cfg results.rawbuf := by
    funext i
    have e : 1 + 1 + 1 + 2 * i + 1 = 4 + 2 * i := by omega
    rw [e, classifiedBit]
  have hlt : msbFirstValue (classifiedBit cfg results.rawbuf) NEC_BITS < LONG_MOD :=
    msbFirstValue_lt (classifiedBit cfg results.rawbuf) 32
  rw [hfun, Nat.zero_mul, Nat.zero_add, Nat.mod_eq_of_lt hlt] at hdec
  unfold decodeNEC1
  simp only [h1, h2, hne, hlen', hdec, Bool.not_true, Bool.false_eq_true, if_false,
    false_and]
  rfl

/-- C2: for every capture with `rawlen ≥ 2 * NEC_BITS + 4 = 68` whose entry 1
matches the header mark, entry 2 the header space, and for each `i` in `0..31`
entry `3 + 2 i` the bit mark and entry `4 + 2 i` the one-space or the
zero-space, `decodeNEC1` returns `DECODED` with `bits = 32`, `decode_type = NEC`
and `value` the 32 classified bits read most-significant first (bit `i` at
weight `2 ^ (31 - i)`).  In particular, under every configuration whose windows
accept the nominal tick counts, the capture of the scenario (9000 µs / 4500 µs
header, 32 bits alternating 1, 0, 1, 0, ...) decodes to `0xAAAAAAAA` with bit
count 32. -/
theorem decodeNEC1_full (cfg : Config) :
    (∀ (irparams1 : irparams_t) (results : decode_results),
      irparams1.rawlen ≥ 2 * NEC_BITS + 4 →
      MATCH_MARK1 cfg (results.rawbuf 1) cfg.NEC_HDR_MARK = true →
      MATCH_SPACE1 cfg (results.rawbuf 2) cfg.NEC_HDR_SPACE = true →
      (∀ i, i < 32 →
        MATCH_MARK1 cfg (results.rawbuf (3 + 2 * i)) cfg.NEC_BIT_MARK = true ∧
        (MATCH_SPACE1 cfg (results.rawbuf (4 + 2 * i)) cfg.NEC_ONE_SPACE = true ∨
          MATCH_SPACE1 cfg (results.rawbuf (4 + 2 * i)) cfg.NEC_ZERO_SPACE = true)) →
      decodeNEC1 cfg irparams1 results =
        (DECODED, { results with
          bits := 32
          value := ∑ i ∈ Finset.range 32,
            if classifiedBit cfg results.rawbuf i then 2 ^ (31 - i) else 0
          decode_type := cfg.NEC })) ∧
    (∀ (irparams1 : irparams_t) (results : decode_results) (gap : Nat),
      irparams1.rawlen = 68 →
      results.rawbuf = scenarioCapture gap →
      MATCH_MARK1 cfg 180 cfg.NEC_HDR_MARK = true →
      MATCH_SPACE1 cfg 90 cfg.NEC_HDR_SPACE = true →
      MATCH_MARK1 cfg 11 cfg.NEC_BIT_MARK = true →
      MATCH_SPACE1 cfg 33 cfg.NEC_ONE_SPACE = true →
      MATCH_SPACE1 cfg 11 cfg.NEC_ONE_SPACE = false →
      MATCH_SPACE1 cfg 11 cfg.NEC_ZERO_SPACE = true →
      decodeNEC1 cfg irparams1 results =
        (DECODED, { results with bits := 32, value := 0xAAAAAAAA, decode_type := cfg.NEC })) := by
  have gen := decodeNEC1_of_match cfg
  refine ⟨fun irparams1 results hlen h1 h2 hbits => gen irparams1 results hlen h1 h2 hbits, ?_⟩
  intro irparams1 results gap hlen hbuf hm hs hb hone hnot hzero
  have hcell : ∀ i, i < 32 →
      results.rawbuf (3 + 2 * i) = 11 ∧
      results.rawbuf (4 + 2 * i) = if i % 2 = 0 then 33 else 11 := by
    intro i hi
    rw [hbuf]
    have a1 : 3 + 2 * i ≠ 0 := by omega
    have a2 : 3 + 2 * i ≠ 1 := by omega
    have a3 : 3 + 2 * i ≠ 2 := by omega
    have a4 : (3 + 2 * i) % 2 = 1 := by omega
    have b1 : 4 + 2 * i ≠ 0 := by omega
    have b2 : 4 + 2 * i ≠ 1 := by omega
    have b3 : 4 + 2 * i ≠ 2 := by omega
    have b4 : ¬ (4 + 2 * i) % 2 = 1 := by omega
    have b5 : (4 + 2 * i - 4) / 2 = i := by omega
    constructor
    · simp [scenarioCapture, a1, a2, a3, a4]
    · simp only [scenarioCapture, b1, b2, b3, b4, b5, if_false]
  have h1 : results.rawbuf 1 = 180 := by rw [hbuf]; rfl
  have h2 : results.rawbuf 2 = 90 := by rw [hbuf]; rfl
  rw [gen irparams1 results (by rw [hlen]; decide) (by rw [h1]; exact hm) (by rw [h2]; exact hs)]
  · have hv : msbFirstValue (classifiedBit cfg results.rawbuf) 32 =
        msbFirstValue (fun i => decide (i % 2 = 0)) 32 := by
      apply msbFirstValue_congr
      intro i hi
      unfold classifiedBit
      rw [(hcell i hi).2]
      by_cases he : i % 2 = 0
      · simp only [he, if_true, decide_True]
        exact hone
      · simp only [he, if_false, decide_False]
        exact hnot
    have hval : msbFirstValue (fun i => decide (i % 2 = 0)) 32 = 0xAAAAAAAA := by
      simp [msbFirstValue, Finset.sum_range_succ]
    rw [hv, hval]
  · intro i hi
    obtain ⟨c1, c2⟩ := hcell i hi
    rw [c1, c2]
    refine ⟨hb, ?_⟩
    by_cases he : i % 2 = 0
    · simp only [he, if_true]
      exact Or.inl hone
    · simp only [he, if_false]
      exact Or.inr hzero

/-! ## Sampler: runs of equal samples -/

theorem runISR_append (cfg : Config) (xs ys : List Level) (p : irparams_t) :
    runISR cfg (xs ++ ys) p = runISR cfg ys (runISR cfg xs p) := by
  simp [runISR, List.foldl_append]

theorem runISR_cons (cfg : Config) (x : Level) (xs : List Level) (p : irparams_t) :
    runISR cfg (x :: xs) p = runISR cfg xs (ISR cfg x p) := rfl

theorem runISR_replicate_succ (cfg : Config) (x : Level) (k : Nat) (p : irparams_t) :
    runISR cfg (List.replicate (k + 1) x) p = runISR cfg (List.replicate k x) (ISR cfg x p) :=
  rfl

theorem tickN_succ (cfg : Config) (k t : Nat) :
    tickN cfg (k + 1) t = tickN cfg k ((t + 1) % cfg.timerMod) := rfl

theorem tickN_le (cfg : Config) (k t : Nat) : tickN cfg k t ≤ t + k := by
  induction k generalizing t with
  | zero => simp [tickN]
  | succ k ih =>
    rw [tickN_succ]
    have h1 := ih ((t + 1) % cfg.timerMod)
    have h2 : (t + 1) % cfg.timerMod ≤ t + 1 := Nat.mod_le _ _
    omega

theorem tickN_next (cfg : Config) (k t : Nat) :
    (tickN cfg k t + 1) % cfg.timerMod = (t + k + 1) % cfg.timerMod := by
  induction k generalizing t with
  | zero => simp [tickN]
  | succ k ih =>
    rw [tickN_succ, ih]
    have e : t + (k + 1) + 1 = (t + 1) + (k + 1) := by omega
    rw [e, Nat.add_assoc ((t + 1) % cfg.timerMod), Nat.mod_add_mod]

theorem run_idle_spaces (cfg : Config) (k t n : Nat) (buf : Nat → Nat) (hn : n < cfg.RAWBUF) :
    runISR cfg (List.replicate k Level.SPACE) ⟨.STATE_IDLE, t, buf, n⟩ =
      ⟨.STATE_IDLE, tickN cfg k t, buf, n⟩ := by
  induction k generalizing t with
  | zero => rfl
  | succ k ih =>
    have hn' : ¬ cfg.RAWBUF ≤ n := by omega
    rw [runISR_replicate_succ, tickN_succ, ← ih]
    congr 1
    simp [ISR, hn']

theorem run_mark_marks (cfg : Config) (k t n : Nat) (buf : Nat → Nat) (hn : n < cfg.RAWBUF) :
    runISR cfg (List.replicate k Level.MARK) ⟨.STATE_MARK, t, buf, n⟩ =
      ⟨.STATE_MARK, tickN cfg k t, buf, n⟩ := by
  induction k generalizing t with
  | zero => rfl
  | succ k ih =>
    have hn' : ¬ cfg.RAWBUF ≤ n := by omega
    rw [runISR_replicate_succ, tickN_succ, ← ih]
    congr 1
    simp [ISR, hn']

theorem run_space_spaces (cfg : Config) (k t n : Nat) (buf : Nat → Nat) (hn : n < cfg.RAWBUF)
    (hgap : t + k ≤ cfg.GAP_TICKS) :
    runISR cfg (List.replicate k Level.SPACE) ⟨.STATE_SPACE, t, buf, n⟩ =
      ⟨.STATE_SPACE, tickN cfg k t, buf, n⟩ := by
  induction k generalizing t with
  | zero => rfl
  | succ k ih =>
    have hn' : ¬ cfg.RAWBUF ≤ n := by omega
    have h2 : (t + 1) % cfg.timerMod ≤ t + 1 := Nat.mod_le _ _
    have h3 : ¬ cfg.GAP_TICKS < (t + 1) % cfg.timerMod := by omega
    rw [runISR_replicate_succ, tickN_succ, ← ih _ (by omega)]
    congr 1
    simp [ISR, hn', h3]

theorem ISR_stop (cfg : Config) (irdata : Level) (p : irparams_t)
    (hs : p.rcvstate = .STATE_STOP) :
    (ISR cfg irdata p).rcvstate = .STATE_STOP ∧ (ISR cfg irdata p).rawlen = p.rawlen ∧
      (ISR cfg irdata p).rawbuf = p.rawbuf := by
  cases irdata <;> by_cases h : cfg.RAWBUF ≤ p.rawlen <;> simp [ISR, hs, h]

theorem runISR_stop (cfg : Config) (samples : List Level) (p : irparams_t)
    (hs : p.rcvstate = .STATE_STOP) :
    (runISR cfg samples p).rcvstate = .STATE_STOP ∧ (runISR cfg samples p).rawlen = p.rawlen ∧
      (runISR cfg samples p).rawbuf = p.rawbuf := by
  induction samples generalizing p with
  | nil => exact ⟨hs, rfl, rfl⟩
  | cons x xs ih =>
    obtain ⟨a, b, c⟩ := ISR_stop cfg x p hs
    obtain ⟨a', b', c'⟩ := ih (ISR cfg x p) a
    exact ⟨a', b'.trans b, c'.trans c⟩

theorem run_silence_stops (cfg : Config) (k n : Nat) (buf : Nat → Nat)
    (hcount : (cfg.GAP_TICKS + 1) % cfg.timerMod = cfg.GAP_TICKS + 1)
    (hk : cfg.GAP_TICKS + 1 ≤ k) :
    (runISR cfg (List.replicate k Level.SPACE) ⟨.STATE_SPACE, 0, buf, n⟩).rcvstate =
        .STATE_STOP ∧
      (runISR cfg (List.replicate k Level.SPACE) ⟨.STATE_SPACE, 0, buf, n⟩).rawlen = n ∧
      (runISR cfg (List.replicate k Level.SPACE) ⟨.STATE_SPACE, 0, buf, n⟩).rawbuf = buf := by
  obtain ⟨r, rfl⟩ : ∃ r, k = cfg.GAP_TICKS + (1 + r) := ⟨k - cfg.GAP_TICKS - 1, by omega⟩
  by_cases hn : n < cfg.RAWBUF
  · rw [List.replicate_add, runISR_append, run_space_spaces cfg _ _ _ _ hn (by omega),
      List.replicate_add, runISR_append]
    have hn' : ¬ cfg.RAWBUF ≤ n := by omega
    have hnext := tickN_next cfg cfg.GAP_TICKS 0
    rw [Nat.zero_add, hcount] at hnext
    have hstep : ISR cfg Level.SPACE ⟨.STATE_SPACE, tickN cfg cfg.GAP_TICKS 0, buf, n⟩ =
        ⟨.STATE_STOP, cfg.GAP_TICKS + 1, buf, n⟩ := by
      simp [ISR, hn', hnext]
    have hone : runISR cfg (List.replicate 1 Level.SPACE)
        ⟨.STATE_SPACE, tickN cfg cfg.GAP_TICKS 0, buf, n⟩ =
        ⟨.STATE_STOP, cfg.GAP_TICKS + 1, buf, n⟩ := hstep
    rw [hone]
    exact runISR_stop cfg _ _ rfl
  · have e : cfg.GAP_TICKS + (1 + r) = (cfg.GAP_TICKS + r) + 1 := by omega
    rw [e, runISR_replicate_succ]
    obtain ⟨a, b, c⟩ := ISR_full cfg Level.SPACE ⟨.STATE_SPACE, 0, buf, n⟩
      (by show cfg.RAWBUF ≤ n; omega)
    obtain ⟨a', b', c'⟩ := runISR_stop cfg (List.replicate (cfg.GAP_TICKS + r) Level.SPACE) _ a
    exact ⟨a', b'.trans b, c'.trans c⟩

/-! ## Sampler: recording a transmission -/

theorem captured_write (st st' : RcvState) (t t' n v : Nat) (buf : Nat → Nat) :
    captured ⟨st, t, write buf n v, n + 1⟩ = captured ⟨st', t', buf, n⟩ ++ [v] := by
  unfold captured
  simp only [List.range_succ, List.map_append, List.map_cons, List.map_nil]
  congr 1
  · apply List.map_congr_left
    intro i hi
    have : i ≠ n := by
      have := List.mem_range.1 hi
      omega
    simp [write, this]
  · simp [write]

/-- One mark of `m` ticks followed by one space of `s` ticks, met while timing
a space: the pending space and the mark are appended. -/
theorem run_pair_space (cfg : Config) (m s t n : Nat) (buf : Nat → Nat)
    (hn : n + 2 < cfg.RAWBUF) (hm : 1 ≤ m) (hmw : m % cfg.timerMod = m)
    (hs : 1 ≤ s) (hsg : s ≤ cfg.GAP_TICKS + 1) :
    ∃ t' buf', runISR cfg (List.replicate m Level.MARK ++ List.replicate s Level.SPACE)
        ⟨.STATE_SPACE, t, buf, n⟩ = ⟨.STATE_SPACE, t', buf', n + 2⟩ ∧
      (t' + 1) % cfg.timerMod = s % cfg.timerMod ∧
      captured ⟨.STATE_SPACE, t', buf', n + 2⟩ =
        captured ⟨.STATE_SPACE, t, buf, n⟩ ++ [(t + 1) % cfg.timerMod, m] := by
  obtain ⟨m, rfl⟩ : ∃ m', m = m' + 1 := ⟨m - 1, by omega⟩
  obtain ⟨s, rfl⟩ : ∃ s', s = s' + 1 := ⟨s - 1, by omega⟩
  have hn0 : ¬ cfg.RAWBUF ≤ n := by omega
  have hn1 : ¬ cfg.RAWBUF ≤ n + 1 := by omega
  have e1 : ISR cfg Level.MARK ⟨.STATE_SPACE, t, buf, n⟩ =
      ⟨.STATE_MARK, 0, write buf n ((t + 1) % cfg.timerMod), n + 1⟩ := by
    simp [ISR, hn0]
  have hnext := tickN_next cfg m 0
  rw [Nat.zero_add, hmw] at hnext
  have e2 : ISR cfg Level.SPACE
      ⟨.STATE_MARK, tickN cfg m 0, write buf n ((t + 1) % cfg.timerMod), n + 1⟩ =
      ⟨.STATE_SPACE, 0, write (write buf n ((t + 1) % cfg.timerMod)) (n + 1) (m + 1),
        n + 1 + 1⟩ := by
    simp [ISR, hn1, hnext]
  refine ⟨tickN cfg s 0, write (write buf n ((t + 1) % cfg.timerMod)) (n + 1) (m + 1), ?_, ?_, ?_⟩
  · rw [runISR_append, runISR_replicate_succ cfg Level.MARK, e1,
      run_mark_marks cfg _ _ _ _ (by omega), runISR_replicate_succ cfg Level.SPACE, e2,
      run_space_spaces cfg _ _ _ _ (by omega) (by omega)]
  · rw [tickN_next, Nat.zero_add]
  · rw [captured_write _ .STATE_SPACE _ 0, captured_write _ .STATE_SPACE _ t, List.append_assoc]
    rfl

/-- The first mark of a transmission, of `m` ticks, followed by one space of
`s` ticks, met in `STATE_IDLE` after a gap that qualifies: the gap and the mark
are recorded as entries 0 and 1. -/
theorem run_pair_idle (cfg : Config) (m s t n : Nat) (buf : Nat → Nat)
    (hn : 2 < cfg.RAWBUF) (hn' : n < cfg.RAWBUF)
    (hgap : cfg.GAP_TICKS ≤ (t + 1) % cfg.timerMod)
    (hm : 1 ≤ m) (hmw : m % cfg.timerMod = m)
    (hs : 1 ≤ s) (hsg : s ≤ cfg.GAP_TICKS + 1) :
    ∃ t' buf', runISR cfg (List.replicate m Level.MARK ++ List.replicate s Level.SPACE)
        ⟨.STATE_IDLE, t, buf, n⟩ = ⟨.STATE_SPACE, t', buf', 2⟩ ∧
      (t' + 1) % cfg.timerMod = s % cfg.timerMod ∧
      captured ⟨.STATE_SPACE, t', buf', 2⟩ = [(t + 1) % cfg.timerMod, m] := by
  obtain ⟨m, rfl⟩ : ∃ m', m = m' + 1 := ⟨m - 1, by omega⟩
  obtain ⟨s, rfl⟩ : ∃ s', s = s' + 1 := ⟨s - 1, by omega⟩
  have hn0 : ¬ cfg.RAWBUF ≤ n := by omega
  have hn1 : ¬ cfg.RAWBUF ≤ 0 + 1 := by omega
  have hg : ¬ (t + 1) % cfg.timerMod < cfg.GAP_TICKS := by omega
  have e1 : ISR cfg Level.MARK ⟨.STATE_IDLE, t, buf, n⟩ =
      ⟨.STATE_MARK, 0, write buf 0 ((t + 1) % cfg.timerMod), 0 + 1⟩ := by
    simp [ISR, hn0, hg]
  have hnext := tickN_next cfg m 0
  rw [Nat.zero_add, hmw] at hnext
  have e2 : ISR cfg Level.SPACE
      ⟨.STATE_MARK, tickN cfg m 0, write buf 0 ((t + 1) % cfg.timerMod), 0 + 1⟩ =
      ⟨.STATE_SPACE, 0, write (write buf 0 ((t + 1) % cfg.timerMod)) (0 + 1) (m + 1),
        0 + 1 + 1⟩ := by
    simp [ISR, hn1, hnext]
  refine ⟨tickN cfg s 0, write (write buf 0 ((t + 1) % cfg.timerMod)) (0 + 1) (m + 1), ?_, ?_, ?_⟩
  · rw [runISR_append, runISR_replicate_succ cfg Level.MARK, e1,
      run_mark_marks cfg _ _ _ _ (by omega), runISR_replicate_succ cfg Level.SPACE, e2,
      run_space_spaces cfg _ _ _ _ (by omega) (by omega)]
  · rw [tickN_next, Nat.zero_add]
  · show captured ⟨.STATE_SPACE, _, _, 0 + 1 + 1⟩ = _
    rw [captured_write _ .STATE_SPACE _ 0, captured_write _ .STATE_SPACE _ t]
    rfl

/-- The closing mark of `m` ticks followed by `q ≥ GAP_TICKS + 2` ticks of
silence, met while timing a space: the pending space and the mark are appended
and the receiver stops. -/
theorem run_closing (cfg : Config) (m q t n : Nat) (buf : Nat → Nat)
    (hn : n + 2 ≤ cfg.RAWBUF) (hm : 1 ≤ m) (hmw : m % cfg.timerMod = m)
    (hcount : (cfg.GAP_TICKS + 1) % cfg.timerMod = cfg.GAP_TICKS + 1)
    (hq : cfg.GAP_TICKS + 2 ≤ q) :
    ∃ p' : irparams_t,
      runISR cfg (List.replicate m Level.MARK ++ List.replicate q Level.SPACE)
        ⟨.STATE_SPACE, t, buf, n⟩ = p' ∧
      p'.rcvstate = .STATE_STOP ∧ p'.rawlen = n + 2 ∧
      captured p' = captured ⟨.STATE_SPACE, t, buf, n⟩ ++ [(t + 1) % cfg.timerMod, m] := by
  obtain ⟨m, rfl⟩ : ∃ m', m = m' + 1 := ⟨m - 1, by omega⟩
  obtain ⟨q, rfl⟩ : ∃ q', q = q' + 1 := ⟨q - 1, by omega⟩
  have hn0 : ¬ cfg.RAWBUF ≤ n := by omega
  have hn1 : ¬ cfg.RAWBUF ≤ n + 1 := by omega
  have e1 : ISR cfg Level.MARK ⟨.STATE_SPACE, t, buf, n⟩ =
      ⟨.STATE_MARK, 0, write buf n ((t + 1) % cfg.timerMod), n + 1⟩ := by
    simp [ISR, hn0]
  have hnext := tickN_next cfg m 0
  rw [Nat.zero_add, hmw] at hnext
  have e2 : ISR cfg Level.SPACE
      ⟨.STATE_MARK, tickN cfg m 0, write buf n ((t + 1) % cfg.timerMod), n + 1⟩ =
      ⟨.STATE_SPACE, 0, write (write buf n ((t + 1) % cfg.timerMod)) (n + 1) (m + 1),
        n + 1 + 1⟩ := by
    simp [ISR, hn1, hnext]
  refine ⟨_, rfl, ?_⟩
  rw [runISR_append, runISR_replicate_succ cfg Level.MARK, e1,
    run_mark_marks cfg _ _ _ _ (by omega), runISR_replicate_succ cfg Level.SPACE, e2]
  obtain ⟨a, b, c⟩ := run_silence_stops cfg q (n + 1 + 1)
    (write (write buf n ((t + 1) % cfg.timerMod)) (n + 1) (m + 1)) hcount (by omega)
  refine ⟨a, b, ?_⟩
  have hcap : captured (runISR cfg (List.replicate q Level.SPACE)
      ⟨.STATE_SPACE, 0, write (write buf n ((t + 1) % cfg.timerMod)) (n + 1) (m + 1),
        n + 1 + 1⟩) =
      captured ⟨.STATE_SPACE, 0, write (write buf n ((t + 1) % cfg.timerMod)) (n + 1) (m + 1),
        n + 1 + 1⟩ := by
    unfold captured
    rw [b, c]
  rw [hcap, captured_write _ .STATE_SPACE _ 0, captured_write _ .STATE_SPACE _ t,
    List.append_assoc]
  rfl

theorem run_pairs (cfg : Config) (ps : List (Nat × Nat)) (t n : Nat) (buf : Nat → Nat)
    (hn : n + 2 * ps.length < cfg.RAWBUF)
    (hps : ∀ x ∈ ps, 1 ≤ x.1 ∧ x.1 % cfg.timerMod = x.1 ∧
      1 ≤ x.2 ∧ x.2 ≤ cfg.GAP_TICKS + 1 ∧ x.2 % cfg.timerMod = x.2) :
    ∃ t' buf', runISR cfg (pairSamples ps) ⟨.STATE_SPACE, t, buf, n⟩ =
        ⟨.STATE_SPACE, t', buf', n + 2 * ps.length⟩ ∧
      captured ⟨.STATE_SPACE, t', buf', n + 2 * ps.length⟩ ++ [(t' + 1) % cfg.timerMod] =
        captured ⟨.STATE_SPACE, t, buf, n⟩ ++
          ((t + 1) % cfg.timerMod :: ps.flatMap (fun x => [x.1, x.2])) := by
  induction ps generalizing t n buf with
  | nil => exact ⟨t, buf, rfl, rfl⟩
  | cons x ps ih =>
    obtain ⟨h1, h2, h3, h4, h5⟩ := hps x (List.mem_cons_self _ _)
    have hlen : (x :: ps).length = ps.length + 1 := rfl
    obtain ⟨t1, buf1, e1, hp1, hc1⟩ := run_pair_space cfg x.1 x.2 t n buf
      (by rw [hlen] at hn; omega) h1 h2 h3 h4
    obtain ⟨t2, buf2, e2, hc2⟩ := ih t1 (n + 2) buf1 (by rw [hlen] at hn; omega)
      (fun y hy => hps y (List.mem_cons_of_mem _ hy))
    have hidx : n + 2 + 2 * ps.length = n + 2 * (x :: ps).length := by rw [hlen]; omega
    refine ⟨t2, buf2, ?_, ?_⟩
    · rw [pairSamples, List.flatMap_cons, runISR_append, e1, ← hidx]
      exact e2
    · rw [← hidx, hc2, hc1, hp1, h5, List.flatMap_cons]
      simp

theorem delayTicks_zero (cfg : Config) : delayTicks cfg 0 = 0 := by
  simp [delayTicks]

theorem samples_sendBits (cfg : Config) (data k : Nat) :
    (sendBits cfg k data).flatMap (Call.samples cfg) =
      pairSamples ((List.range k).map
        (fun i => (delayTicks cfg cfg.NEC_BIT_MARK, bitSpaceTicks cfg (msbBit data i)))) := by
  rw [sendBits_eq, pairSamples, List.flatMap_map]
  induction k with
  | zero => rfl
  | succ k ih =>
    rw [List.range_succ, List.flatMap_append, List.flatMap_append, List.flatMap_append, ih]
    congr 1
    simp [bitEmission, Call.samples, bitSpaceTicks]

theorem replay_sendNEC1 (cfg : Config) (g q data : Nat) (nbits : Int) :
    replay cfg g q (sendNEC1 cfg data nbits) =
      List.replicate g Level.SPACE ++
        ((List.replicate (delayTicks cfg cfg.NEC_HDR_MARK) Level.MARK ++
            List.replicate (delayTicks cfg cfg.NEC_HDR_SPACE) Level.SPACE) ++
          (pairSamples ((List.range nbits.toNat).map
              (fun i => (delayTicks cfg cfg.NEC_BIT_MARK, bitSpaceTicks cfg (msbBit data i)))) ++
            (List.replicate (delayTicks cfg cfg.NEC_BIT_MARK) Level.MARK ++
              List.replicate q Level.SPACE))) := by
  unfold replay sendNEC1
  rw [List.flatMap_append, List.flatMap_append, samples_sendBits]
  simp [Call.samples, delayTicks_zero]

/-- What the sampler holds after a replayed transmission of `nbits` bits: it
has stopped with `2 * nbits + 4` entries, namely the gap, then the tick count of
every emission except the closing zero-length space. -/
theorem capture_transmission (cfg : Config) (hnom : Nominal cfg) (irparams1 : irparams_t)
    (g q data : Nat) (nbits : Int) (hfit : 2 * nbits.toNat + 4 ≤ cfg.RAWBUF)
    (hgap : cfg.GAP_TICKS ≤ (irparams1.timer + g + 1) % cfg.timerMod)
    (hq : cfg.GAP_TICKS + 2 ≤ q) :
    (runISR cfg (replay cfg g q (sendNEC1 cfg data nbits)) (enableIRIn1 irparams1)).rcvstate =
        .STATE_STOP ∧
    (runISR cfg (replay cfg g q (sendNEC1 cfg data nbits)) (enableIRIn1 irparams1)).rawlen =
        2 * nbits.toNat + 4 ∧
    captured (runISR cfg (replay cfg g q (sendNEC1 cfg data nbits)) (enableIRIn1 irparams1)) =
      (irparams1.timer + g + 1) % cfg.timerMod ::
        delayTicks cfg cfg.NEC_HDR_MARK ::
        delayTicks cfg cfg.NEC_HDR_SPACE ::
        ((List.range nbits.toNat).flatMap
            (fun i => [delayTicks cfg cfg.NEC_BIT_MARK, bitSpaceTicks cfg (msbBit data i)]) ++
          [delayTicks cfg cfg.NEC_BIT_MARK]) := by
  obtain ⟨hm1, hm2, -⟩ := hnom.hdr_mark
  obtain ⟨hs1, hs2, hs3, -⟩ := hnom.hdr_space
  obtain ⟨hb1, hb2, -⟩ := hnom.bit_mark
  obtain ⟨ho1, ho2, ho3, -⟩ := hnom.one_space
  obtain ⟨hz1, hz2, hz3, -⟩ := hnom.zero_space
  have hstart : enableIRIn1 irparams1 =
      ⟨.STATE_IDLE, irparams1.timer, irparams1.rawbuf, 0⟩ := rfl
  rw [replay_sendNEC1, hstart, runISR_append, run_idle_spaces cfg _ _ _ _ (by omega),
    runISR_append]
  have hpend := tickN_next cfg g irparams1.timer
  obtain ⟨t1, buf1, e1, hp1, hc1⟩ := run_pair_idle cfg (delayTicks cfg cfg.NEC_HDR_MARK)
    (delayTicks cfg cfg.NEC_HDR_SPACE) (tickN cfg g irparams1.timer) 0 irparams1.rawbuf
    (by omega) (by omega) (by rw [hpend]; exact hgap) hm1 hm2 hs1 hs2
  rw [e1, runISR_append]
  have hlen : ((List.range nbits.toNat).map
      (fun i => (delayTicks cfg cfg.NEC_BIT_MARK, bitSpaceTicks cfg (msbBit data i)))).length =
      nbits.toNat := by simp
  obtain ⟨t2, buf2, e2, hc2⟩ := run_pairs cfg ((List.range nbits.toNat).map
      (fun i => (delayTicks cfg cfg.NEC_BIT_MARK, bitSpaceTicks cfg (msbBit data i))))
    t1 2 buf1 (by rw [hlen]; omega) (by
      intro x hx
      obtain ⟨i, -, rfl⟩ := List.mem_map.1 hx
      refine ⟨hb1, hb2, ?_⟩
      unfold bitSpaceTicks
      cases msbBit data i
      · exact ⟨hz1, hz2, hz3⟩
      · exact ⟨ho1, ho2, ho3⟩)
  rw [e2, hlen]
  rw [hlen, hc1, hp1, hs3, hpend, List.flatMap_map] at hc2
  obtain ⟨p', e3, hstop, hrawlen, hc3⟩ := run_closing cfg (delayTicks cfg cfg.NEC_BIT_MARK) q t2
    (2 + 2 * nbits.toNat) buf2 (by omega) hb1 hb2 hnom.counter hq
  rw [e3]
  refine ⟨hstop, by rw [hrawlen]; omega, ?_⟩
  rw [hc3]
  have : captured ⟨.STATE_SPACE, t2, buf2, 2 + 2 * nbits.toNat⟩ ++
      [(t2 + 1) % cfg.timerMod, delayTicks cfg cfg.NEC_BIT_MARK] =
      (captured ⟨.STATE_SPACE, t2, buf2, 2 + 2 * nbits.toNat⟩ ++ [(t2 + 1) % cfg.timerMod]) ++
        [delayTicks cfg cfg.NEC_BIT_MARK] := by simp
  rw [this, hc2]
  simp

/-! ## Round trip -/

theorem refConfig_nominal : Nominal refConfig where
  buffer := by decide
  counter := by decide
  hdr_mark := ⟨by decide, by decide, by decide⟩
  hdr_space := ⟨by decide, by decide, by decide, by decide⟩
  bit_mark := ⟨by decide, by decide, by decide⟩
  one_space := ⟨by decide, by decide, by decide, by decide⟩
  zero_space := ⟨by decide, by decide, by decide, by decide⟩
  zero_not_one := by decide

/-- Instance of C2: the scenario capture of the spec, under the reference
configuration, decodes to the alternating pattern. -/
theorem decodeNEC1_full_witness :
    decodeNEC1 refConfig ⟨.STATE_STOP, 0, scenarioCapture 150, 68⟩
        { staleResults with rawbuf := scenarioCapture 150 } =
      (DECODED, { staleResults with
        rawbuf := scenarioCapture 150, bits := 32, value := 0xAAAAAAAA, decode_type := 1 }) :=
  (decodeNEC1_full refConfig).2 ⟨.STATE_STOP, 0, scenarioCapture 150, 68⟩
    { staleResults with rawbuf := scenarioCapture 150 } 150 rfl rfl
    (by decide) (by decide) (by decide) (by decide) (by decide) (by decide)

/-- Instance of C6: a tick that finds the 100-entry buffer of the reference
configuration full stops the receiver and leaves the buffer alone. -/
theorem buffer_capacity_witness :
    (ISR refConfig Level.MARK ⟨.STATE_MARK, 3, fun _ => 1, 100⟩).rcvstate = .STATE_STOP ∧
    (ISR refConfig Level.MARK ⟨.STATE_MARK, 3, fun _ => 1, 100⟩).rawlen = 100 ∧
    (ISR refConfig Level.MARK ⟨.STATE_MARK, 3, fun _ => 1, 100⟩).rawbuf = fun _ => 1 :=
  (buffer_capacity refConfig ⟨.STATE_IDLE, 0, fun _ => 0, 0⟩ []).2.2
    ⟨.STATE_MARK, 3, fun _ => 1, 100⟩ Level.MARK rfl

/-! ## Transmitter: carrier frequency -/

theorem enabledKHz_bits (cfg : Config) (n data : Nat) : enabledKHz (sendBits cfg n data) = [] := by
  induction n generalizing data with
  | zero => rfl
  | succ n ih =>
    unfold sendBits
    split <;> simpa [enabledKHz] using ih _

theorem enabledKHz_append_marks (l r : List Call) (hr : enabledKHz r = []) :
    enabledKHz (l ++ r) = enabledKHz l := by
  induction l with
  | nil => simpa using hr
  | cons c l ih =>
    cases c <;> simp [enabledKHz, ih]

/-- C11 (amended): `sendNEC1` enables the modulated output exactly once, before
any emission, and at the fixed carrier frequency 38 kHz, whatever the payload
and the bit count are; `enableIROut1(khz)` itself configures the frequency `khz`
it is passed. -/
theorem sendNEC1_carrier_fixed (cfg : Config) (data : Nat) (nbits : Int) :
    enabledKHz (sendNEC1 cfg data nbits) = [38] ∧
    (sendNEC1 cfg data nbits).head? = some (Call.enableIROut1 38) ∧
    (∀ khz : Int, PinOp.TIMER_CONFIG_KHZ khz ∈ (Call.enableIROut1 khz).exec) := by
  refine ⟨?_, rfl, ?_⟩
  · unfold sendNEC1
    rw [enabledKHz_append_marks _ _ (by rfl)]
    show 38 :: enabledKHz (sendBits cfg nbits.toNat data) = [38]
    rw [enabledKHz_bits]
  · intro khz
    simp [Call.exec, enableIROut1]

/-- Counterexample to C11 as stated: a caller who wants a 36 kHz carrier cannot
get it from `sendNEC1`, which takes no frequency and enables the output at
38 kHz. -/
theorem sendNEC1_carrier_not_chosen :
    ¬ ∀ F : Int, enabledKHz (sendNEC1 refConfig 0x20DF10EF 32) = [F] := by
  intro h
  have h36 := h 36
  revert h36
  decide

theorem DECODED_ne_ERR : DECODED ≠ ERR := by decide

/-! ## Sampler: the stopped state and the end of a capture -/

/-- C12: in `STATE_STOP`, for every pin level, a sampler tick leaves the state
`STATE_STOP` and leaves `rawlen` and every buffer entry as they were; only the
tick counter changes: it is reset to 0 on a mark and incremented by one (in the
counter's own arithmetic) otherwise.  Hence any number of ticks leaves the
state, `rawlen` and the buffer of a stopped receiver unchanged, while `resume1`,
`enableIRIn1` and a failed `decode1` clear `rawlen`. -/
theorem stopped_is_frozen (cfg : Config) (irparams1 : irparams_t)
    (hstate : irparams1.rcvstate = .STATE_STOP) :
    (∀ irdata : Level,
      ISR cfg irdata irparams1 =
        { irparams1 with
          timer := if irdata = Level.MARK then 0 else (irparams1.timer + 1) % cfg.timerMod }) ∧
    (∀ samples : List Level,
      (runISR cfg samples irparams1).rcvstate = .STATE_STOP ∧
      (runISR cfg samples irparams1).rawlen = irparams1.rawlen ∧
      (runISR cfg samples irparams1).rawbuf = irparams1.rawbuf) ∧
    (resume1 irparams1).rawlen = 0 ∧ (enableIRIn1 irparams1).rawlen = 0 ∧
    (∀ results : decode_results, (decode1 cfg irparams1 results).1 = ERR →
      (decode1 cfg irparams1 results).2.1.rawlen = 0) := by
  refine ⟨?_, fun samples => runISR_stop cfg samples irparams1 hstate, rfl, rfl, ?_⟩
  · intro irdata
    obtain ⟨st, t, buf, n⟩ := irparams1
    simp only at hstate
    subst hstate
    cases irdata <;> by_cases h : cfg.RAWBUF ≤ n <;> simp [ISR, h]
  · intro results herr
    unfold decode1 at herr ⊢
    simp only [hstate, ne_eq, not_true_eq_false, if_false] at herr ⊢
    split_ifs at herr ⊢ with h
    · rfl
    · exact absurd herr DECODED_ne_ERR

/-- Witness for C12: the stopped repeat capture, fed a mark, two spaces and a
mark, is still stopped with its four entries. -/
theorem stopped_is_frozen_witness :
    (runISR refConfig [Level.MARK, Level.SPACE, Level.SPACE, Level.MARK] repeatCapture).rcvstate =
      .STATE_STOP ∧
    (runISR refConfig [Level.MARK, Level.SPACE, Level.SPACE, Level.MARK] repeatCapture).rawlen =
      4 ∧
    (runISR refConfig [Level.MARK, Level.SPACE, Level.SPACE, Level.MARK] repeatCapture).rawbuf =
      repeatCapture.rawbuf :=
  (stopped_is_frozen refConfig repeatCapture rfl).2.1
    [Level.MARK, Level.SPACE, Level.SPACE, Level.MARK]

/-- C13: in `STATE_SPACE` with `rawlen < RAWBUF`, a tick that reads a space
moves to `STATE_STOP` exactly when the counter after this tick's increment is
strictly greater than `GAP_TICKS`; whether it stops or stays in `STATE_SPACE`,
nothing is appended (`rawlen` and the buffer are unchanged) and the counter
keeps its incremented value. -/
theorem end_of_capture (cfg : Config) (irparams1 : irparams_t)
    (hstate : irparams1.rcvstate = .STATE_SPACE) (hlen : irparams1.rawlen < cfg.RAWBUF) :
    ((ISR cfg Level.SPACE irparams1).rcvstate = .STATE_STOP ↔
      (irparams1.timer + 1) % cfg.timerMod > cfg.GAP_TICKS) ∧
    ((irparams1.timer + 1) % cfg.timerMod ≤ cfg.GAP_TICKS →
      (ISR cfg Level.SPACE irparams1).rcvstate = .STATE_SPACE) ∧
    (ISR cfg Level.SPACE irparams1).rawlen = irparams1.rawlen ∧
    (ISR cfg Level.SPACE irparams1).rawbuf = irparams1.rawbuf ∧
    (ISR cfg Level.SPACE irparams1).timer = (irparams1.timer + 1) % cfg.timerMod := by
  have hlen' : ¬ cfg.RAWBUF ≤ irparams1.rawlen := by omega
  by_cases hgap : cfg.GAP_TICKS < (irparams1.timer + 1) % cfg.timerMod
  · simp [ISR, hstate, hlen', hgap]
  · have hle : (irparams1.timer + 1) % cfg.timerMod ≤ cfg.GAP_TICKS := by omega
    simp [ISR, hstate, hlen', hgap, hle]

/-- Witness for C13: with `GAP_TICKS = 100`, a space tick that brings the
counter to 101 stops the receiver, one that brings it to 100 does not. -/
theorem end_of_capture_witness :
    (ISR refConfig Level.SPACE ⟨.STATE_SPACE, 100, fun _ => 0, 4⟩).rcvstate = .STATE_STOP ∧
    (ISR refConfig Level.SPACE ⟨.STATE_SPACE, 99, fun _ => 0, 4⟩).rcvstate = .STATE_SPACE :=
  ⟨(end_of_capture refConfig ⟨.STATE_SPACE, 100, fun _ => 0, 4⟩ rfl (by decide)).1.2 (by decide),
    (end_of_capture refConfig ⟨.STATE_SPACE, 99, fun _ => 0, 4⟩ rfl (by decide)).2.1
      (by decide)⟩

/-! ## Decoder: failures report nothing -/

theorem decodeNEC1_err_unchanged (cfg : Config) (irparams1 : irparams_t)
    (results : decode_results) (herr : (decodeNEC1 cfg irparams1 results).1 = ERR) :
    (decodeNEC1 cfg irparams1 results).2 = results := by
  unfold decodeNEC1 at herr ⊢
  simp only [] at herr ⊢
  split_ifs at herr ⊢ with h1 h2 h3 h4
  · rfl
  · exact absurd herr DECODED_ne_ERR
  · rfl
  · rfl
  · split at herr
    · rfl
    · exact absurd herr DECODED_ne_ERR

theorem decodeBits_none (cfg : Config) (rawbuf : Nat → Nat) (n offset data k : Nat)
    (hk : k < n)
    (hbad : MATCH_MARK1 cfg (rawbuf (offset + 2 * k)) cfg.NEC_BIT_MARK = false ∨
      (MATCH_SPACE1 cfg (rawbuf (offset + 2 * k + 1)) cfg.NEC_ONE_SPACE = false ∧
        MATCH_SPACE1 cfg (rawbuf (offset + 2 * k + 1)) cfg.NEC_ZERO_SPACE = false)) :
    decodeBits cfg rawbuf n offset data = none := by
  induction n generalizing offset data k with
  | zero => omega
  | succ n ih =>
    unfold decodeBits
    by_cases hm : MATCH_MARK1 cfg (rawbuf offset) cfg.NEC_BIT_MARK = true
    · simp only [hm, Bool.not_true, Bool.false_eq_true, if_false]
      match k, hk, hbad with
      | 0, _, hbad =>
        simp only [Nat.mul_zero, Nat.add_zero] at hbad
        rcases hbad with h | ⟨h1, h2⟩
        · rw [hm] at h
          exact absurd h (by decide)
        · simp [h1, h2]
      | k + 1, hk, hbad =>
        have e : offset + 2 * (k + 1) = offset + 1 + 1 + 2 * k := by omega
        rw [e] at hbad
        have hrec : ∀ d, decodeBits cfg rawbuf n (offset + 1 + 1) d = none :=
          fun d => ih (offset + 1 + 1) d k (by omega) hbad
        split_ifs
        · exact hrec _
        · exact hrec _
        · rfl
    · simp [hm]

theorem decodeNEC1_mismatch (cfg : Config) (irparams1 : irparams_t) (results : decode_results)
    (hshape : ¬ repeatShape cfg irparams1 results)
    (hbad : MATCH_MARK1 cfg (results.rawbuf 1) cfg.NEC_HDR_MARK = false ∨
      irparams1.rawlen < 2 * NEC_BITS + 4 ∨
      MATCH_SPACE1 cfg (results.rawbuf 2) cfg.NEC_HDR_SPACE = false ∨
      (∃ k, k < 32 ∧ MATCH_MARK1 cfg (results.rawbuf (3 + 2 * k)) cfg.NEC_BIT_MARK = false) ∨
      (∃ k, k < 32 ∧ MATCH_SPACE1 cfg (results.rawbuf (4 + 2 * k)) cfg.NEC_ONE_SPACE = false ∧
        MATCH_SPACE1 cfg (results.rawbuf (4 + 2 * k)) cfg.NEC_ZERO_SPACE = false)) :
    decodeNEC1 cfg irparams1 results = (ERR, results) := by
  unfold decodeNEC1
  simp only []
  by_cases hm : MATCH_MARK1 cfg (results.rawbuf 1) cfg.NEC_HDR_MARK = true
  · have hrep : ¬ (irparams1.rawlen = 4 ∧
        MATCH_SPACE1 cfg (results.rawbuf (1 + 1)) cfg.NEC_RPT_SPACE = true ∧
        MATCH_MARK1 cfg (results.rawbuf (1 + 1 + 1)) cfg.NEC_BIT_MARK = true) :=
      fun h => hshape ⟨h.1, hm, h.2.1, h.2.2⟩
    simp only [hm, Bool.not_true, Bool.false_eq_true, if_false, hrep]
    by_cases hlen : irparams1.rawlen < 2 * NEC_BITS + 4
    · simp only [hlen, if_true]
    · simp only [hlen, if_false]
      by_cases hs : MATCH_SPACE1 cfg (results.rawbuf (1 + 1)) cfg.NEC_HDR_SPACE = true
      · simp only [hs, Bool.not_true, Bool.false_eq_true, if_false]
        have hnone : decodeBits cfg results.rawbuf NEC_BITS (1 + 1 + 1) 0 = none := by
          rcases hbad with h | h | h | ⟨k, hk, h⟩ | ⟨k, hk, h1, h2⟩
          · rw [hm] at h
            exact absurd h (by decide)
          · exact absurd h hlen
          · rw [show (2 : Nat) = 1 + 1 from rfl, hs] at h
            exact absurd h (by decide)
          · apply decodeBits_none cfg _ _ _ _ k hk
            left
            have e : 1 + 1 + 1 + 2 * k = 3 + 2 * k := by omega
            rw [e]
            exact h
          · apply decodeBits_none cfg _ _ _ _ k hk
            right
            have e : 1 + 1 + 1 + 2 * k + 1 = 4 + 2 * k := by omega
            rw [e]
            exact ⟨h1, h2⟩
        rw [hnone]
      · simp [hs]
  · simp [hm]

/-- C15: `decodeNEC1` returns `ERR` on a header mark mismatch and, outside the
repeat shape, on too few entries, on a header space mismatch, on a bit mark
mismatch at any bit position and on a bit space matching neither the one-space
nor the zero-space; and whenever it returns `ERR` the results record is exactly
what it was before the call, so `value`, `bits` and `decode_type` keep their
prior contents and no bit accumulated before the failing position is reported.
A status `DECODED` therefore means the repeat shape or 32 matching bits. -/
theorem no_partial_results (cfg : Config) (irparams1 : irparams_t) (results : decode_results) :
    ((decodeNEC1 cfg irparams1 results).1 = ERR →
      (decodeNEC1 cfg irparams1 results).2.value = results.value ∧
      (decodeNEC1 cfg irparams1 results).2.bits = results.bits ∧
      (decodeNEC1 cfg irparams1 results).2.decode_type = results.decode_type) ∧
    (MATCH_MARK1 cfg (results.rawbuf 1) cfg.NEC_HDR_MARK = false →
      decodeNEC1 cfg irparams1 results = (ERR, results)) ∧
    (¬ repeatShape cfg irparams1 results →
      (irparams1.rawlen < 2 * NEC_BITS + 4 ∨
        MATCH_SPACE1 cfg (results.rawbuf 2) cfg.NEC_HDR_SPACE = false ∨
        (∃ k, k < 32 ∧
          MATCH_MARK1 cfg (results.rawbuf (3 + 2 * k)) cfg.NEC_BIT_MARK = false) ∨
        (∃ k, k < 32 ∧
          MATCH_SPACE1 cfg (results.rawbuf (4 + 2 * k)) cfg.NEC_ONE_SPACE = false ∧
          MATCH_SPACE1 cfg (results.rawbuf (4 + 2 * k)) cfg.NEC_ZERO_SPACE = false)) →
      decodeNEC1 cfg irparams1 results = (ERR, results)) ∧
    ((decodeNEC1 cfg irparams1 results).1 = DECODED →
      repeatShape cfg irparams1 results ∨
      (2 * NEC_BITS + 4 ≤ irparams1.rawlen ∧
        MATCH_MARK1 cfg (results.rawbuf 1) cfg.NEC_HDR_MARK = true ∧
        MATCH_SPACE1 cfg (results.rawbuf 2) cfg.NEC_HDR_SPACE = true ∧
        ∀ k, k < 32 →
          MATCH_MARK1 cfg (results.rawbuf (3 + 2 * k)) cfg.NEC_BIT_MARK = true ∧
          (MATCH_SPACE1 cfg (results.rawbuf (4 + 2 * k)) cfg.NEC_ONE_SPACE = true ∨
            MATCH_SPACE1 cfg (results.rawbuf (4 + 2 * k)) cfg.NEC_ZERO_SPACE = true))) := by
  refine ⟨?_, ?_, ?_, ?_⟩
  · intro herr
    rw [decodeNEC1_err_unchanged cfg irparams1 results herr]
    exact ⟨rfl, rfl, rfl⟩
  · intro hm
    apply decodeNEC1_mismatch cfg irparams1 results _ (Or.inl hm)
    intro hshape
    rw [hshape.2.1] at hm
    exact absurd hm (by decide)
  · intro hshape hbad
    exact decodeNEC1_mismatch cfg irparams1 results hshape (Or.inr hbad)
  · intro hdec
    by_contra hcon
    push_neg at hcon
    obtain ⟨hshape, hfull⟩ := hcon
    have herr : decodeNEC1 cfg irparams1 results = (ERR, results) := by
      apply decodeNEC1_mismatch cfg irparams1 results hshape
      by_cases hlen : irparams1.rawlen < 2 * NEC_BITS + 4
      · exact Or.inr (Or.inl hlen)
      · by_cases hm : MATCH_MARK1 cfg (results.rawbuf 1) cfg.NEC_HDR_MARK = true
        · by_cases hs : MATCH_SPACE1 cfg (results.rawbuf 2) cfg.NEC_HDR_SPACE = true
          · obtain ⟨k, hk, hbit⟩ := hfull (by omega) hm hs
            by_cases hbm : MATCH_MARK1 cfg (results.rawbuf (3 + 2 * k)) cfg.NEC_BIT_MARK = true
            · obtain ⟨h1, h2⟩ := hbit hbm
              exact Or.inr (Or.inr (Or.inr (Or.inr ⟨k, hk, by simpa using h1, by simpa using h2⟩)))
            · exact Or.inr (Or.inr (Or.inr (Or.inl ⟨k, hk, by simpa using hbm⟩)))
          · exact Or.inr (Or.inr (Or.inl (by simpa using hs)))
        · exact Or.inl (by simpa using hm)
    rw [herr] at hdec
    exact DECODED_ne_ERR hdec.symm

/-! ## ReachableAtomic states -/

theorem SamplerInv_ISR (cfg : Config) (irdata : Level) (p : irparams_t)
    (h : SamplerInv cfg p) : SamplerInv cfg (ISR cfg irdata p) := by
  obtain ⟨st, t, buf, n⟩ := p
  obtain ⟨h1, h2, h3, h4⟩ := h
  simp only at h1 h2 h3 h4
  by_cases hfull : cfg.RAWBUF ≤ n
  · have e : ISR cfg irdata ⟨st, t, buf, n⟩ =
        ⟨.STATE_STOP, if irdata = Level.MARK then 0 else (t + 1) % cfg.timerMod, buf, n⟩ := by
      cases irdata <;> simp [ISR, hfull]
    rw [e]
    refine ⟨by simp, by simp, by simp, ?_⟩
    intro _ h2buf
    show 2 ≤ n
    omega
  · cases st <;> cases irdata <;> simp only [ISR, hfull, ge_iff_le, if_false, if_true,
      reduceCtorEq] <;> (try split_ifs) <;>
      simp_all [SamplerInv] <;> omega

theorem SamplerInv_reachableAtomic (cfg : Config) (p : irparams_t) (h : ReachableAtomic cfg p) :
    SamplerInv cfg p := by
  induction h with
  | arm p => simp [SamplerInv, enableIRIn1]
  | tick irdata _ ih => exact SamplerInv_ISR cfg irdata _ ih
  | resume _ _ => simp [SamplerInv, resume1]
  | decode results _ ih =>
    unfold decode1
    simp only []
    split_ifs
    · exact ih
    · exact ih
    · simp [SamplerInv, resume1]

theorem recorded_spec (cfg : Config) (irdata : Level) (p : irparams_t)
    (hidle : p.rcvstate = .STATE_IDLE → p.rawlen = 0) :
    (∀ i lv, recorded cfg irdata p = some (i, lv) →
      (ISR cfg irdata p).rawbuf = write p.rawbuf i ((p.timer + 1) % cfg.timerMod) ∧
      (ISR cfg irdata p).rawlen = i + 1 ∧ i = p.rawlen) ∧
    (recorded cfg irdata p = none →
      (ISR cfg irdata p).rawbuf = p.rawbuf ∧ (ISR cfg irdata p).rawlen = p.rawlen) := by
  obtain ⟨st, t, buf, n⟩ := p
  simp only at hidle
  by_cases hfull : cfg.RAWBUF ≤ n
  · cases st <;> cases irdata <;> simp [recorded, ISR, hfull]
  · cases st <;> cases irdata <;>
      simp only [recorded, ISR, hfull, ge_iff_le, if_false, if_true, reduceCtorEq] <;>
      (try split_ifs) <;> simp_all

/-- The alternation invariant when the stores of `enableIRIn1` and `resume1` are
not interrupted: in every state of `ReachableAtomic`, `STATE_IDLE` implies
`rawlen = 0`, `STATE_MARK` implies that `rawlen` is odd, and `STATE_SPACE`
implies that `rawlen` is even and at least 2; whenever a tick records a duration
it appends it at index `rawlen`, and that index is even exactly when a space (or
the leading gap, at index 0) has just ended and odd exactly when a mark has just
ended. -/
theorem atomic_alternation_invariant (cfg : Config) (p : irparams_t) (hreach : ReachableAtomic cfg p) :
    (p.rcvstate = .STATE_IDLE → p.rawlen = 0) ∧
    (p.rcvstate = .STATE_MARK → p.rawlen % 2 = 1) ∧
    (p.rcvstate = .STATE_SPACE → p.rawlen % 2 = 0 ∧ 2 ≤ p.rawlen) ∧
    (∀ (irdata : Level) (i : Nat) (lv : Level), recorded cfg irdata p = some (i, lv) →
      (ISR cfg irdata p).rawbuf = write p.rawbuf i ((p.timer + 1) % cfg.timerMod) ∧
      (ISR cfg irdata p).rawlen = i + 1 ∧ i = p.rawlen ∧
      (lv = Level.SPACE ↔ i % 2 = 0) ∧ (lv = Level.MARK ↔ i % 2 = 1)) ∧
    (∀ irdata : Level, recorded cfg irdata p = none →
      (ISR cfg irdata p).rawbuf = p.rawbuf ∧ (ISR cfg irdata p).rawlen = p.rawlen) := by
  obtain ⟨h1, h2, h3, -⟩ := SamplerInv_reachableAtomic cfg p hreach
  refine ⟨h1, h2, h3, ?_, fun irdata => (recorded_spec cfg irdata p h1).2⟩
  intro irdata i lv hrec
  obtain ⟨a, b, c⟩ := (recorded_spec cfg irdata p h1).1 i lv hrec
  refine ⟨a, b, c, ?_⟩
  obtain ⟨st, t, buf, n⟩ := p
  simp only at h1 h2 h3 c
  subst c
  by_cases hfull : cfg.RAWBUF ≤ i
  · simp [recorded, hfull] at hrec
  · cases st <;> cases irdata <;>
      simp only [recorded, hfull, ge_iff_le, if_false, if_true, reduceCtorEq] at hrec <;>
      (try split_ifs at hrec) <;> simp_all <;> (subst hrec; decide)

/-- An instance of the invariant: the armed receiver that has counted 150 ticks
of silence sees a mark and is in `STATE_MARK` with one entry, an odd count. -/
theorem atomic_alternation_invariant_example :
    (ISR refConfig Level.MARK (enableIRIn1 ⟨.STATE_STOP, 150, fun _ => 0, 9⟩)).rcvstate =
      .STATE_MARK ∧
    (ISR refConfig Level.MARK (enableIRIn1 ⟨.STATE_STOP, 150, fun _ => 0, 9⟩)).rawlen % 2 = 1 :=
  ⟨by decide,
    (atomic_alternation_invariant refConfig _
      (ReachableAtomic.tick Level.MARK (ReachableAtomic.arm ⟨.STATE_STOP, 150, fun _ => 0, 9⟩))).2.1
      (by decide)⟩

/-! ## Decoder: which entries are read -/

theorem decodeBitsReads_bound (cfg : Config) (rawbuf : Nat → Nat) (n offset i : Nat)
    (hi : i ∈ decodeBitsReads cfg rawbuf n offset) : offset ≤ i ∧ i < offset + 2 * n := by
  induction n generalizing offset with
  | zero => simp [decodeBitsReads] at hi
  | succ n ih =>
    unfold decodeBitsReads at hi
    rcases List.mem_cons.1 hi with rfl | hi
    · omega
    · split_ifs at hi with h1 h2 h3
      · simp at hi
      · rcases List.mem_cons.1 hi with rfl | hi
        · omega
        · have := ih _ hi
          omega
      · rcases List.mem_cons.1 hi with rfl | hi
        · omega
        · rcases List.mem_cons.1 hi with rfl | hi
          · omega
          · have := ih _ hi
            omega
      · simp at hi
        omega

theorem decodeNEC1Reads_bound (cfg : Config) (irparams1 : irparams_t) (results : decode_results)
    (i : Nat) (hi : i ∈ decodeNEC1Reads cfg irparams1 results) :
    i = 1 ∨ ((i = 2 ∨ i = 3) ∧ irparams1.rawlen = 4) ∨
      (2 ≤ i ∧ i ≤ 66 ∧ 68 ≤ irparams1.rawlen) := by
  unfold decodeNEC1Reads at hi
  simp only [] at hi
  have h32 : NEC_BITS = 32 := rfl
  rcases List.mem_cons.1 hi with rfl | hi
  · exact Or.inl rfl
  · right
    by_cases hm : MATCH_MARK1 cfg (results.rawbuf 1) cfg.NEC_HDR_MARK = true
    · simp only [hm, Bool.not_true, Bool.false_eq_true, if_false] at hi
      by_cases h4 : irparams1.rawlen = 4
      · have hshort : irparams1.rawlen < 2 * NEC_BITS + 4 := by omega
        simp only [h4, true_and, if_true] at hi
        rw [h4] at hshort
        simp only [hshort, if_true] at hi
        left
        refine ⟨?_, h4⟩
        split_ifs at hi <;> simp at hi <;> omega
      · simp only [h4, false_and, if_false, List.nil_append] at hi
        right
        split_ifs at hi with h3 h5
        · simp at hi
        · simp at hi
          omega
        · rcases List.mem_cons.1 hi with rfl | hi
          · omega
          · have := decodeBitsReads_bound cfg _ _ _ _ hi
            omega
    · simp [hm] at hi

theorem decodeBits_reads_congr (cfg : Config) (b1 b2 : Nat → Nat) (n offset data : Nat)
    (h : ∀ i ∈ decodeBitsReads cfg b1 n offset, b1 i = b2 i) :
    decodeBits cfg b1 n offset data = decodeBits cfg b2 n offset data := by
  induction n generalizing offset data with
  | zero => rfl
  | succ n ih =>
    unfold decodeBitsReads at h
    have h0 : b1 offset = b2 offset := h offset (List.mem_cons_self _ _)
    unfold decodeBits
    rw [← h0]
    by_cases hm : MATCH_MARK1 cfg (b1 offset) cfg.NEC_BIT_MARK = true
    · simp only [hm, Bool.not_true, Bool.false_eq_true, if_false] at h ⊢
      have h1 : b1 (offset + 1) = b2 (offset + 1) :=
        h (offset + 1) (List.mem_cons_of_mem _ (List.mem_cons_self _ _))
      rw [← h1]
      by_cases hone : MATCH_SPACE1 cfg (b1 (offset + 1)) cfg.NEC_ONE_SPACE = true
      · simp only [hone, if_true] at h ⊢
        exact ih _ _ (fun i hi => h i (List.mem_cons_of_mem _ (List.mem_cons_of_mem _ hi)))
      · simp only [hone, Bool.false_eq_true, if_false] at h ⊢
        by_cases hzero : MATCH_SPACE1 cfg (b1 (offset + 1)) cfg.NEC_ZERO_SPACE = true
        · simp only [hzero, if_true] at h ⊢
          exact ih _ _ (fun i hi => h i
            (List.mem_cons_of_mem _ (List.mem_cons_of_mem _ (List.mem_cons_of_mem _ hi))))
        · simp only [hzero, Bool.false_eq_true, if_false]
    · simp [hm]

/-- The result of `decodeNEC1` is determined by `rawlen` and the entries listed
by `decodeNEC1Reads`: a buffer that agrees with the given one on those entries
gives the same status and the same reported fields. -/
theorem decodeNEC1_reads_sufficient (cfg : Config) (irparams1 : irparams_t)
    (results : decode_results) (buf : Nat → Nat)
    (h : ∀ i ∈ decodeNEC1Reads cfg irparams1 results, results.rawbuf i = buf i) :
    (decodeNEC1 cfg irparams1 { results with rawbuf := buf }).1 =
      (decodeNEC1 cfg irparams1 results).1 ∧
    (decodeNEC1 cfg irparams1 { results with rawbuf := buf }).2 =
      { (decodeNEC1 cfg irparams1 results).2 with rawbuf := buf } := by
  unfold decodeNEC1Reads at h
  simp only [] at h
  have h1 : results.rawbuf 1 = buf 1 := h 1 (List.mem_cons_self _ _)
  unfold decodeNEC1
  simp only []
  rw [← h1]
  by_cases hm : MATCH_MARK1 cfg (results.rawbuf 1) cfg.NEC_HDR_MARK = true
  · simp only [hm, Bool.not_true, Bool.false_eq_true, if_false] at h ⊢
    by_cases h4 : irparams1.rawlen = 4
    · have h2 : results.rawbuf (1 + 1) = buf (1 + 1) :=
        h _ (List.mem_cons_of_mem _ (List.mem_append_left _ (by simp [h4])))
      rw [← h2]
      have hshort : irparams1.rawlen < 2 * NEC_BITS + 4 := by rw [h4]; decide
      have hpos : 0 < NEC_BITS := by decide
      by_cases hs : MATCH_SPACE1 cfg (results.rawbuf (1 + 1)) cfg.NEC_RPT_SPACE = true
      · have h3 : results.rawbuf (1 + 1 + 1) = buf (1 + 1 + 1) :=
          h _ (List.mem_cons_of_mem _ (List.mem_append_left _ (by simp [h4, hs])))
        rw [← h3]
        by_cases hb : MATCH_MARK1 cfg (results.rawbuf (1 + 1 + 1)) cfg.NEC_BIT_MARK = true
        · simp [h4, hs, hb]
        · simp [h4, hs, hb, hpos]
      · simp [h4, hs, hpos]
    · by_cases hshort : irparams1.rawlen < 2 * NEC_BITS + 4
      · simp [h4, hshort]
      · simp only [h4, hshort, false_and, if_false, List.nil_append] at h ⊢
        have h2 : results.rawbuf (1 + 1) = buf (1 + 1) :=
          h _ (List.mem_cons_of_mem _ (List.mem_cons_self _ _))
        rw [← h2]
        by_cases hs : MATCH_SPACE1 cfg (results.rawbuf (1 + 1)) cfg.NEC_HDR_SPACE = true
        · simp only [hs, Bool.not_true, Bool.false_eq_true, if_false] at h ⊢
          rw [← decodeBits_reads_congr cfg results.rawbuf buf NEC_BITS (1 + 1 + 1) 0
            (fun i hi => h i (List.mem_cons_of_mem _ (List.mem_cons_of_mem _ hi)))]
          cases decodeBits cfg results.rawbuf NEC_BITS (1 + 1 + 1) 0 <;> exact ⟨rfl, rfl⟩
        · simp [hs]
  · simp [hm]

theorem reachableAtomic_runISR (cfg : Config) (samples : List Level) (p : irparams_t)
    (h : ReachableAtomic cfg p) : ReachableAtomic cfg (runISR cfg samples p) := by
  induction samples generalizing p with
  | nil => exact h
  | cons x xs ih => exact ih _ (ReachableAtomic.tick x h)

/-- The decoder's reads when the stores of `enableIRIn1` and `resume1` are not
interrupted: assuming `RAWBUF ≥ 2`, in every state of `ReachableAtomic`,
`STATE_STOP` implies `rawlen ≥ 2`, and every buffer index that the NEC decode
reads is then strictly below `rawlen`: index 1 always, indices 2 and 3 on the
repeat test only when `rawlen = 4`, and indices from 2 up to 66 on the full path
only when `rawlen ≥ 68`. -/
theorem atomic_decoder_reads_in_bounds (cfg : Config) (hbuf : 2 ≤ cfg.RAWBUF) (p : irparams_t)
    (hreach : ReachableAtomic cfg p) :
    (p.rcvstate = .STATE_STOP → 2 ≤ p.rawlen) ∧
    (p.rcvstate = .STATE_STOP → ∀ (results : decode_results) (i : Nat),
      i ∈ decodeNEC1Reads cfg p { results with rawbuf := p.rawbuf, rawlen := p.rawlen } →
      i < p.rawlen ∧
      (i = 1 ∨ ((i = 2 ∨ i = 3) ∧ p.rawlen = 4) ∨ (2 ≤ i ∧ i ≤ 66 ∧ 68 ≤ p.rawlen))) ∧
    (∀ results : decode_results, 1 ∈ decodeNEC1Reads cfg p results) := by
  obtain ⟨-, -, -, h4⟩ := SamplerInv_reachableAtomic cfg p hreach
  refine ⟨fun hs => h4 hs hbuf, ?_, ?_⟩
  · intro hs results i hi
    have h2 := h4 hs hbuf
    have hb := decodeNEC1Reads_bound cfg p _ i hi
    refine ⟨?_, hb⟩
    omega
  · intro results
    unfold decodeNEC1Reads
    exact List.mem_cons_self _ _

/-- An instance: the receiver that has captured a replayed 32-bit transmission
is stopped and holds at least two entries. -/
theorem atomic_decoder_reads_in_bounds_example :
    2 ≤ (runISR refConfig (replay refConfig 100 102 (sendNEC1 refConfig 0x20DF10EF 32))
      (enableIRIn1 ⟨.STATE_STOP, 0, fun _ => 0, 0⟩)).rawlen :=
  (atomic_decoder_reads_in_bounds refConfig (by decide) _
    (reachableAtomic_runISR refConfig _ _ (ReachableAtomic.arm ⟨.STATE_STOP, 0, fun _ => 0, 0⟩))).1
    (capture_transmission refConfig refConfig_nominal ⟨.STATE_STOP, 0, fun _ => 0, 0⟩
      100 102 0x20DF10EF 32 (by decide) (by decide) (by decide)).1

/-- C18: `decodeNEC1` examines neither the leading gap (entry 0) nor anything
from entry 67 on: two buffers with the same `rawlen` that agree on entries 1
through 66 give the same status, `value`, `bits` and `decode_type`.  In
particular a capture that decodes still decodes, to the same value, when its
entry 67 (the closing bit mark) or its entry 0 is replaced by an arbitrary tick
count. -/
theorem gap_and_closing_mark_unread (cfg : Config) (irparams1 : irparams_t)
    (results : decode_results) :
    (∀ buf : Nat → Nat, (∀ i, 1 ≤ i → i ≤ 66 → results.rawbuf i = buf i) →
      (decodeNEC1 cfg irparams1 { results with rawbuf := buf }).1 =
        (decodeNEC1 cfg irparams1 results).1 ∧
      (decodeNEC1 cfg irparams1 { results with rawbuf := buf }).2.value =
        (decodeNEC1 cfg irparams1 results).2.value ∧
      (decodeNEC1 cfg irparams1 { results with rawbuf := buf }).2.bits =
        (decodeNEC1 cfg irparams1 results).2.bits ∧
      (decodeNEC1 cfg irparams1 { results with rawbuf := buf }).2.decode_type =
        (decodeNEC1 cfg irparams1 results).2.decode_type) ∧
    (∀ v : Nat, 68 ≤ irparams1.rawlen → (decodeNEC1 cfg irparams1 results).1 = DECODED →
      (decodeNEC1 cfg irparams1 { results with rawbuf := write results.rawbuf 67 v }).1 =
        DECODED ∧
      (decodeNEC1 cfg irparams1 { results with rawbuf := write results.rawbuf 67 v }).2.value =
        (decodeNEC1 cfg irparams1 results).2.value) ∧
    (∀ v : Nat, (decodeNEC1 cfg irparams1 results).1 = DECODED →
      (decodeNEC1 cfg irparams1 { results with rawbuf := write results.rawbuf 0 v }).1 =
        DECODED ∧
      (decodeNEC1 cfg irparams1 { results with rawbuf := write results.rawbuf 0 v }).2.value =
        (decodeNEC1 cfg irparams1 results).2.value) := by
  have key : ∀ buf : Nat → Nat, (∀ i, 1 ≤ i → i ≤ 66 → results.rawbuf i = buf i) →
      (decodeNEC1 cfg irparams1 { results with rawbuf := buf }).1 =
        (decodeNEC1 cfg irparams1 results).1 ∧
      (decodeNEC1 cfg irparams1 { results with rawbuf := buf }).2 =
        { (decodeNEC1 cfg irparams1 results).2 with rawbuf := buf } := by
    intro buf hagree
    apply decodeNEC1_reads_sufficient
    intro i hi
    have := decodeNEC1Reads_bound cfg irparams1 results i hi
    exact hagree i (by omega) (by omega)
  refine ⟨?_, ?_, ?_⟩
  · intro buf hagree
    obtain ⟨h1, h2⟩ := key buf hagree
    rw [h2]
    exact ⟨h1, rfl, rfl, rfl⟩
  · intro v _ hdec
    obtain ⟨h1, h2⟩ := key (write results.rawbuf 67 v) (by
      intro i _ hi
      have : i ≠ 67 := by omega
      simp [write, this])
    rw [h2]
    exact ⟨h1.trans hdec, rfl⟩
  · intro v hdec
    obtain ⟨h1, h2⟩ := key (write results.rawbuf 0 v) (by
      intro i hi _
      have : i ≠ 0 := by omega
      simp [write, this])
    rw [h2]
    exact ⟨h1.trans hdec, rfl⟩

/-- Instance of C18: the scenario capture with a closing bit mark of 9999 ticks
instead of 11 still decodes to the alternating pattern. -/
theorem gap_and_closing_mark_unread_witness :
    (decodeNEC1 refConfig ⟨.STATE_STOP, 0, scenarioCapture 150, 68⟩
      { staleResults with rawbuf := write (scenarioCapture 150) 67 9999 }).1 = DECODED ∧
    (decodeNEC1 refConfig ⟨.STATE_STOP, 0, scenarioCapture 150, 68⟩
      { staleResults with rawbuf := write (scenarioCapture 150) 67 9999 }).2.value =
        0xAAAAAAAA :=
  have h := (gap_and_closing_mark_unread refConfig ⟨.STATE_STOP, 0, scenarioCapture 150, 68⟩
    { staleResults with rawbuf := scenarioCapture 150 }).2.1 9999 (by decide) (by decide)
  ⟨h.1, h.2.trans (by decide)⟩

/-- Witness for C15: a 68-entry capture with a perfect header and 31 perfect
bits whose last bit space (entry 66, 50 ticks) matches neither the one-space nor
the zero-space is rejected, and the stale results record keeps its contents. -/
theorem no_partial_results_witness :
    decodeNEC1 refConfig ⟨.STATE_STOP, 0, write (scenarioCapture 150) 66 50, 68⟩
        { staleResults with rawbuf := write (scenarioCapture 150) 66 50 } =
      (ERR, { staleResults with rawbuf := write (scenarioCapture 150) 66 50 }) ∧
    ({ staleResults with rawbuf := write (scenarioCapture 150) 66 50 } :
      decode_results).value = 12345 :=
  ⟨(no_partial_results refConfig ⟨.STATE_STOP, 0, write (scenarioCapture 150) 66 50, 68⟩
      { staleResults with rawbuf := write (scenarioCapture 150) 66 50 }).2.2.1
      (fun h => absurd h.1 (by decide))
      (Or.inr (Or.inr (Or.inr ⟨31, by decide, by decide, by decide⟩))), rfl⟩

/-! ## Transmitter: bit selection -/

theorem flatMap_pairs_getElem_gen {α : Type} (a b : Nat → α) (l : List α) (n j : Nat)
    (hj : j < n) :
    ((List.range n).flatMap (fun i => [a i, b i]) ++ l)[2 * j]? = some (a j) ∧
      ((List.range n).flatMap (fun i => [a i, b i]) ++ l)[2 * j + 1]? = some (b j) := by
  induction n generalizing a b j with
  | zero => omega
  | succ n ih =>
    rw [List.range_succ_eq_map, List.flatMap_cons, List.flatMap_map]
    match j, hj with
    | 0, _ => simp
    | j + 1, hj =>
      have h := ih (fun i => a (i + 1)) (fun i => b (i + 1)) j (by omega)
      have e1 : 2 * (j + 1) = 2 * j + 1 + 1 := by omega
      rw [e1]
      simpa using h

theorem sendBits_congr (cfg : Config) (n data data' : Nat)
    (h : ∀ j, 32 - n ≤ j → j < 32 → data.testBit j = data'.testBit j) :
    sendBits cfg n data = sendBits cfg n data' := by
  rw [sendBits_eq, sendBits_eq]
  apply List.flatMap_congr
  intro i hi
  have hi' : i < n := List.mem_range.1 hi
  have hbit : msbBit data i = msbBit data' i := by
    unfold msbBit
    by_cases h32 : i < 32
    · rw [h (31 - i) (by omega) (by omega)]
    · simp [h32]
  rw [hbit]

/-- C19: the encoder takes its bits from bit 31 of the 32-bit data word
downwards, whatever `nbits` is: the space of the `i`-th payload bit (`i` from 0,
the call at position `4 + 2 i` of `sendNEC1`, after `mark1(NEC_BIT_MARK)` at
position `3 + 2 i`) is `space1(NEC_ONE_SPACE)` when `i < 32` and bit `31 - i` of
`data` is set, and `space1(NEC_ZERO_SPACE)` otherwise, in particular for every
`i ≥ 32`.  Hence two data words that agree on bits `32 - nbits .. 31` are sent
as the same sequence: the low `32 - nbits` bits never influence it. -/
theorem encoder_bit_anchor (cfg : Config) (data : Nat) (nbits : Int) :
    (∀ i : Nat, i < nbits.toNat →
      (sendNEC1 cfg data nbits)[3 + 2 * i]? = some (Call.mark1 cfg.NEC_BIT_MARK) ∧
      (sendNEC1 cfg data nbits)[4 + 2 * i]? =
        some (Call.space1
          (if i < 32 ∧ data.testBit (31 - i) = true then cfg.NEC_ONE_SPACE
            else cfg.NEC_ZERO_SPACE)) ∧
      (32 ≤ i → (sendNEC1 cfg data nbits)[4 + 2 * i]? =
        some (Call.space1 cfg.NEC_ZERO_SPACE))) ∧
    (∀ data' : Nat,
      (∀ j, 32 - nbits.toNat ≤ j → j < 32 → data.testBit j = data'.testBit j) →
      sendNEC1 cfg data nbits = sendNEC1 cfg data' nbits) := by
  constructor
  · intro i hi
    have hlist : sendNEC1 cfg data nbits =
        Call.enableIROut1 38 :: Call.mark1 cfg.NEC_HDR_MARK :: Call.space1 cfg.NEC_HDR_SPACE ::
          ((List.range nbits.toNat).flatMap
              (fun i => [Call.mark1 cfg.NEC_BIT_MARK,
                Call.space1 (if msbBit data i then cfg.NEC_ONE_SPACE else cfg.NEC_ZERO_SPACE)]) ++
            [Call.mark1 cfg.NEC_BIT_MARK, Call.space1 0]) := by
      unfold sendNEC1
      rw [sendBits_eq]
      rfl
    obtain ⟨ha, hb⟩ := flatMap_pairs_getElem_gen (fun _ => Call.mark1 cfg.NEC_BIT_MARK)
      (fun i => Call.space1 (if msbBit data i then cfg.NEC_ONE_SPACE else cfg.NEC_ZERO_SPACE))
      [Call.mark1 cfg.NEC_BIT_MARK, Call.space1 0] nbits.toNat i hi
    have e3 : 3 + 2 * i = 2 * i + 1 + 1 + 1 := by omega
    have e4 : 4 + 2 * i = 2 * i + 1 + 1 + 1 + 1 := by omega
    have hspace : (sendNEC1 cfg data nbits)[4 + 2 * i]? =
        some (Call.space1
          (if i < 32 ∧ data.testBit (31 - i) = true then cfg.NEC_ONE_SPACE
            else cfg.NEC_ZERO_SPACE)) := by
      rw [hlist, e4, List.getElem?_cons_succ, List.getElem?_cons_succ, List.getElem?_cons_succ, hb]
      simp [msbBit]
    refine ⟨?_, hspace, ?_⟩
    · rw [hlist, e3, List.getElem?_cons_succ, List.getElem?_cons_succ, List.getElem?_cons_succ]
      exact ha
    · intro h32
      rw [hspace]
      have : ¬ i < 32 := by omega
      simp [this]
  · intro data' h
    unfold sendNEC1
    rw [sendBits_congr cfg nbits.toNat data data' h]

/-- Instance of C19: with `nbits = 16` the words `0xABCD0000` and `0xABCDFFFF`
are sent as the same sequence of calls, and the space of bit 0 is the
one-space. -/
theorem encoder_bit_anchor_witness :
    sendNEC1 refConfig 0xABCD0000 16 = sendNEC1 refConfig 0xABCDFFFF 16 ∧
    (sendNEC1 refConfig 0xABCD0000 16)[4]? = some (Call.space1 1690) :=
  ⟨(encoder_bit_anchor refConfig 0xABCD0000 16).2 0xABCDFFFF (by decide),
    ((encoder_bit_anchor refConfig 0xABCD0000 16).1 0 (by decide)).2.1.trans (by decide)⟩

/-! ## Sampler: reconstruction of run lengths -/

theorem mod_eq_of_le_of_mod_eq (W a b : Nat) (hab : a ≤ b) (hb : b % W = b) : a % W = a := by
  rcases Nat.eq_zero_or_pos W with rfl | hW
  · simp
  · have : b < W := by
      rw [← hb]
      exact Nat.mod_lt _ hW
    exact Nat.mod_eq_of_lt (by omega)

/-- The only mark of a transmission, of `m` ticks, followed by `q ≥ GAP_TICKS + 2`
ticks of silence, met in `STATE_IDLE` after a gap that qualifies. -/
theorem run_closing_idle (cfg : Config) (m q t n : Nat) (buf : Nat → Nat)
    (hn : 2 ≤ cfg.RAWBUF) (hn' : n < cfg.RAWBUF)
    (hgap : cfg.GAP_TICKS ≤ (t + 1) % cfg.timerMod)
    (hm : 1 ≤ m) (hmw : m % cfg.timerMod = m)
    (hcount : (cfg.GAP_TICKS + 1) % cfg.timerMod = cfg.GAP_TICKS + 1)
    (hq : cfg.GAP_TICKS + 2 ≤ q) :
    ∃ p' : irparams_t,
      runISR cfg (List.replicate m Level.MARK ++ List.replicate q Level.SPACE)
        ⟨.STATE_IDLE, t, buf, n⟩ = p' ∧
      p'.rcvstate = .STATE_STOP ∧ p'.rawlen = 2 ∧
      captured p' = [(t + 1) % cfg.timerMod, m] := by
  obtain ⟨m, rfl⟩ : ∃ m', m = m' + 1 := ⟨m - 1, by omega⟩
  obtain ⟨q, rfl⟩ : ∃ q', q = q' + 1 := ⟨q - 1, by omega⟩
  have hn0 : ¬ cfg.RAWBUF ≤ n := by omega
  have hn1 : ¬ cfg.RAWBUF ≤ 0 + 1 := by omega
  have hg : ¬ (t + 1) % cfg.timerMod < cfg.GAP_TICKS := by omega
  have e1 : ISR cfg Level.MARK ⟨.STATE_IDLE, t, buf, n⟩ =
      ⟨.STATE_MARK, 0, write buf 0 ((t + 1) % cfg.timerMod), 0 + 1⟩ := by
    simp [ISR, hn0, hg]
  have hnext := tickN_next cfg m 0
  rw [Nat.zero_add, hmw] at hnext
  have e2 : ISR cfg Level.SPACE
      ⟨.STATE_MARK, tickN cfg m 0, write buf 0 ((t + 1) % cfg.timerMod), 0 + 1⟩ =
      ⟨.STATE_SPACE, 0, write (write buf 0 ((t + 1) % cfg.timerMod)) (0 + 1) (m + 1),
        0 + 1 + 1⟩ := by
    simp [ISR, hn1, hnext]
  refine ⟨_, rfl, ?_⟩
  rw [runISR_append, runISR_replicate_succ cfg Level.MARK, e1,
    run_mark_marks cfg _ _ _ _ (by omega), runISR_replicate_succ cfg Level.SPACE, e2]
  obtain ⟨a, b, c⟩ := run_silence_stops cfg q (0 + 1 + 1)
    (write (write buf 0 ((t + 1) % cfg.timerMod)) (0 + 1) (m + 1)) hcount (by omega)
  refine ⟨a, b, ?_⟩
  have hcap : captured (runISR cfg (List.replicate q Level.SPACE)
      ⟨.STATE_SPACE, 0, write (write buf 0 ((t + 1) % cfg.timerMod)) (0 + 1) (m + 1),
        0 + 1 + 1⟩) =
      captured ⟨.STATE_SPACE, 0, write (write buf 0 ((t + 1) % cfg.timerMod)) (0 + 1) (m + 1),
        0 + 1 + 1⟩ := by
    unfold captured
    rw [b, c]
  rw [hcap, captured_write _ .STATE_SPACE _ 0, captured_write _ .STATE_SPACE _ t]
  rfl

/-- Run lengths within the range of the tick counter are reconstructed: from the
armed state (`STATE_IDLE`, `rawlen = 0`, counter 0), for every sample stream
made of `g` space samples with `g + 1 ≥ GAP_TICKS`, then alternating runs of
`m1` mark samples, `s1` space samples, ..., `mk` mark samples (every run at
least one sample, every space run at most `GAP_TICKS + 1` samples,
`2 k ≤ RAWBUF`), then more than `GAP_TICKS + 1` space samples, and provided the
tick counter can hold `g + 1`, every mark run length and `GAP_TICKS + 1` without
wrapping, the sampler ends in `STATE_STOP` with `rawlen = 2 k` and the buffer
`[g + 1, m1, s1, m2, ..., s(k-1), mk]`. -/
theorem sampler_reconstructs_runs (cfg : Config) (st : RcvState) (buf : Nat → Nat) (n : Nat)
    (g : Nat) (ps : List (Nat × Nat)) (mk q : Nat)
    (hgap : cfg.GAP_TICKS ≤ g + 1)
    (hps : ∀ x ∈ ps, 1 ≤ x.1 ∧ 1 ≤ x.2 ∧ x.2 ≤ cfg.GAP_TICKS + 1)
    (hmk : 1 ≤ mk) (hfit : 2 * (ps.length + 1) ≤ cfg.RAWBUF) (hq : cfg.GAP_TICKS + 1 < q)
    (hgw : (g + 1) % cfg.timerMod = g + 1)
    (hpw : ∀ x ∈ ps, x.1 % cfg.timerMod = x.1)
    (hmkw : mk % cfg.timerMod = mk)
    (hcount : (cfg.GAP_TICKS + 1) % cfg.timerMod = cfg.GAP_TICKS + 1) :
    (runISR cfg (List.replicate g Level.SPACE ++ pairSamples ps ++
        List.replicate mk Level.MARK ++ List.replicate q Level.SPACE)
      (enableIRIn1 ⟨st, 0, buf, n⟩)).rcvstate = .STATE_STOP ∧
    (runISR cfg (List.replicate g Level.SPACE ++ pairSamples ps ++
        List.replicate mk Level.MARK ++ List.replicate q Level.SPACE)
      (enableIRIn1 ⟨st, 0, buf, n⟩)).rawlen = 2 * (ps.length + 1) ∧
    captured (runISR cfg (List.replicate g Level.SPACE ++ pairSamples ps ++
        List.replicate mk Level.MARK ++ List.replicate q Level.SPACE)
      (enableIRIn1 ⟨st, 0, buf, n⟩)) =
      (g + 1) :: (ps.flatMap (fun x => [x.1, x.2]) ++ [mk]) := by
  have hstart : enableIRIn1 ⟨st, 0, buf, n⟩ = ⟨.STATE_IDLE, 0, buf, 0⟩ := rfl
  have hlen : (ps.length + 1) ≥ 1 := by omega
  have hpend := tickN_next cfg g 0
  rw [Nat.zero_add, hgw] at hpend
  rw [hstart, List.append_assoc, List.append_assoc, runISR_append,
    run_idle_spaces cfg _ _ _ _ (by omega)]
  cases ps with
  | nil =>
    obtain ⟨p', e, hstop, hrawlen, hcap⟩ := run_closing_idle cfg mk q (tickN cfg g 0) 0 buf
      (by simpa using hfit) (by simp at hfit; omega) (by rw [hpend]; exact hgap) hmk hmkw hcount
      (by omega)
    have e' : runISR cfg (pairSamples [] ++
        (List.replicate mk Level.MARK ++ List.replicate q Level.SPACE))
        ⟨.STATE_IDLE, tickN cfg g 0, buf, 0⟩ = p' := e
    rw [e']
    refine ⟨hstop, hrawlen, ?_⟩
    rw [hcap, hpend]
    rfl
  | cons x ps =>
    have hlen' : (x :: ps).length = ps.length + 1 := rfl
    rw [hlen'] at hfit
    obtain ⟨hx1, hx2, hx3⟩ := hps x (List.mem_cons_self _ _)
    have hxw := hpw x (List.mem_cons_self _ _)
    obtain ⟨t1, buf1, e1, hp1, hc1⟩ := run_pair_idle cfg x.1 x.2 (tickN cfg g 0) 0 buf
      (by omega) (by omega) (by rw [hpend]; exact hgap) hx1 hxw hx2 hx3
    obtain ⟨t2, buf2, e2, hc2⟩ := run_pairs cfg ps t1 2 buf1 (by omega) (by
      intro y hy
      obtain ⟨hy1, hy2, hy3⟩ := hps y (List.mem_cons_of_mem _ hy)
      exact ⟨hy1, hpw y (List.mem_cons_of_mem _ hy), hy2, hy3,
        mod_eq_of_le_of_mod_eq _ _ _ hy3 hcount⟩)
    obtain ⟨p', e3, hstop, hrawlen, hc3⟩ := run_closing cfg mk q t2 (2 + 2 * ps.length) buf2
      (by omega) hmk hmkw hcount (by omega)
    have hsplit : pairSamples (x :: ps) =
        (List.replicate x.1 Level.MARK ++ List.replicate x.2 Level.SPACE) ++ pairSamples ps := by
      simp [pairSamples]
    rw [hsplit, List.append_assoc, runISR_append, e1, runISR_append, e2, e3]
    refine ⟨hstop, by rw [hrawlen, hlen']; omega, ?_⟩
    rw [hc1, hp1, mod_eq_of_le_of_mod_eq _ _ _ hx3 hcount, hpend] at hc2
    have hassoc : captured ⟨.STATE_SPACE, t2, buf2, 2 + 2 * ps.length⟩ ++
        [(t2 + 1) % cfg.timerMod, mk] =
        (captured ⟨.STATE_SPACE, t2, buf2, 2 + 2 * ps.length⟩ ++ [(t2 + 1) % cfg.timerMod]) ++
          [mk] := by simp
    rw [hc3, hassoc, hc2]
    simp

/-- An instance: a gap of 120 ticks, the runs 180, 90, 11, 33, 11 and 130 ticks
of silence are recorded as `[121, 180, 90, 11, 33, 11]`. -/
theorem sampler_reconstructs_runs_witness :
    captured (runISR refConfig (List.replicate 120 Level.SPACE ++
        pairSamples [(180, 90), (11, 33)] ++
        List.replicate 11 Level.MARK ++ List.replicate 130 Level.SPACE)
      (enableIRIn1 ⟨.STATE_STOP, 0, fun _ => 0, 7⟩)) = [121, 180, 90, 11, 33, 11] :=
  (sampler_reconstructs_runs refConfig .STATE_STOP (fun _ => 0) 7 120 [(180, 90), (11, 33)] 11 130
    (by decide) (by decide) (by decide) (by decide) (by decide) (by decide) (by decide)
    (by decide) (by decide)).2.2

theorem tickN_wraps_refConfig :
    (tickN refConfig 65535 0 + 1) % refConfig.timerMod = 0 := by
  rw [tickN_next]
  show 65536 % 65536 = 0
  exact Nat.mod_self 65536

theorem idle_rejects_after_wrap (T : Nat) (hnext : (T + 1) % refConfig.timerMod = 0) :
    runISR refConfig (List.replicate 1 Level.MARK) ⟨.STATE_IDLE, T, fun _ => 0, 0⟩ =
      ⟨.STATE_IDLE, 0, fun _ => 0, 0⟩ := by
  show ISR refConfig Level.MARK ⟨.STATE_IDLE, T, fun _ => 0, 0⟩ = _
  have hfull : ¬ refConfig.RAWBUF ≤ 0 := by decide
  have hlt : (0 : Nat) < refConfig.GAP_TICKS := by decide
  simp only [ISR, hfull, ge_iff_le, if_false, if_true, hnext, hlt]

theorem wrapped_gap_run :
    runISR refConfig (List.replicate 65535 Level.SPACE ++ pairSamples [] ++
        List.replicate 1 Level.MARK ++ List.replicate 102 Level.SPACE)
      (enableIRIn1 ⟨.STATE_STOP, 0, fun _ => 0, 0⟩) =
      ⟨.STATE_IDLE, tickN refConfig 102 0, fun _ => 0, 0⟩ := by
  have hstart : enableIRIn1 ⟨.STATE_STOP, 0, fun _ => 0, 0⟩ =
      ⟨.STATE_IDLE, 0, fun _ => 0, 0⟩ := rfl
  have hnext := tickN_wraps_refConfig
  rw [hstart, runISR_append, runISR_append, runISR_append,
    run_idle_spaces refConfig _ _ _ _ (by decide)]
  generalize tickN refConfig 65535 0 = T at hnext
  have hpairs : runISR refConfig (pairSamples [])
      ⟨.STATE_IDLE, T, fun _ => 0, 0⟩ = ⟨.STATE_IDLE, T, fun _ => 0, 0⟩ := rfl
  rw [hpairs, idle_rejects_after_wrap T hnext, run_idle_spaces refConfig _ _ _ _ (by decide)]

/-- The 16-bit instance evaluated step by step: a gap of 65535 space samples
(so `g + 1 = 65536 ≥ GAP_TICKS`), one mark sample and 102 space samples satisfy
every condition of C14, yet the counter has wrapped to 0 when the mark arrives:
the mark is rejected as noise, the receiver stays in `STATE_IDLE` and records
nothing. -/
theorem sampler_misses_wrapped_gap :
    (refConfig.GAP_TICKS ≤ 65536 ∧ 2 * 1 ≤ refConfig.RAWBUF - 1 ∧
      refConfig.GAP_TICKS + 1 < 102) ∧
    (runISR refConfig (List.replicate 65535 Level.SPACE ++ pairSamples [] ++
        List.replicate 1 Level.MARK ++ List.replicate 102 Level.SPACE)
      (enableIRIn1 ⟨.STATE_STOP, 0, fun _ => 0, 0⟩)).rcvstate = .STATE_IDLE ∧
    (runISR refConfig (List.replicate 65535 Level.SPACE ++ pairSamples [] ++
        List.replicate 1 Level.MARK ++ List.replicate 102 Level.SPACE)
      (enableIRIn1 ⟨.STATE_STOP, 0, fun _ => 0, 0⟩)).rawlen = 0 := by
  refine ⟨⟨by decide, by decide, by decide⟩, ?_, ?_⟩
  · rw [wrapped_gap_run]
  · rw [wrapped_gap_run]

/-! ## The timer interrupt between the two stores of `resume1` -/

theorem resume1_eq_stores (p : irparams_t) : resume1 p = storeRawlen (storeRcvstate p) := rfl

theorem enableIRIn1_eq_stores (p : irparams_t) :
    enableIRIn1 p = storeRawlen (storeRcvstate p) := rfl

theorem decode1_irparams (cfg : Config) (p : irparams_t) (results : decode_results) :
    (decode1 cfg p results).2.1 = p ∨ (decode1 cfg p results).2.1 = resume1 p := by
  unfold decode1
  simp only []
  split_ifs
  · exact Or.inl rfl
  · exact Or.inl rfl
  · exact Or.inr rfl

/-- Every state produced with uninterrupted stores is produced by the program:
a whole `resume1` is its two stores with no tick in between. -/
theorem reachable_of_atomic (cfg : Config) (p : irparams_t) (h : ReachableAtomic cfg p) :
    Reachable cfg p false := by
  induction h with
  | arm p => exact Reachable.arm p
  | tick irdata _ ih => exact Reachable.tick irdata ih
  | resume _ ih =>
    rw [resume1_eq_stores]
    exact Reachable.storeSecond (Reachable.storeFirst ih)
  | decode results _ ih =>
    rcases decode1_irparams cfg _ results with h | h
    · rw [h]
      exact ih
    · rw [h, resume1_eq_stores]
      exact Reachable.storeSecond (Reachable.storeFirst ih)

theorem reachable_runISR (cfg : Config) (samples : List Level) (p : irparams_t) (mid : Bool)
    (h : Reachable cfg p mid) : Reachable cfg (runISR cfg samples p) mid := by
  induction samples generalizing p with
  | nil => exact h
  | cons x xs ih => exact ih _ (Reachable.tick x h)

theorem racedState_eq :
    racedState = ⟨.STATE_MARK, 0, write (fun _ => 0) 0 151, 0⟩ := by
  unfold racedState storeRawlen storeRcvstate enableIRIn1
  simp [ISR, refConfig]

theorem racedState_reachable : Reachable refConfig racedState false :=
  Reachable.storeSecond (Reachable.tick Level.MARK
    (Reachable.storeFirst (Reachable.arm ⟨.STATE_STOP, 150, fun _ => 0, 0⟩)))

theorem racedStop_eq :
    racedStop.rcvstate = .STATE_STOP ∧ racedStop.rawlen = 1 ∧
      racedStop.rawbuf = write (write (fun _ => 0) 0 151) 0 1 := by
  have hstep : ISR refConfig Level.SPACE ⟨.STATE_MARK, 0, write (fun _ => 0) 0 151, 0⟩ =
      ⟨.STATE_SPACE, 0, write (write (fun _ => 0) 0 151) 0 1, 1⟩ := by
    simp [ISR, refConfig]
  have hrun : racedStop = runISR refConfig (List.replicate 101 Level.SPACE)
      ⟨.STATE_SPACE, 0, write (write (fun _ => 0) 0 151) 0 1, 1⟩ := by
    unfold racedStop
    rw [racedState_eq, runISR_replicate_succ refConfig Level.SPACE 101, hstep]
  rw [hrun]
  exact run_silence_stops refConfig 101 1 _ (by decide) (by decide)

theorem interruptedResume_eq (cfg : Config) (st : RcvState) (t n : Nat) (buf : Nat → Nat)
    (hbuf : 0 < cfg.RAWBUF) (hgap : cfg.GAP_TICKS ≤ (t + 1) % cfg.timerMod) :
    interruptedResume cfg Level.MARK (enableIRIn1 ⟨st, t, buf, n⟩) =
      ⟨.STATE_MARK, 0, write buf 0 ((t + 1) % cfg.timerMod), 0⟩ := by
  have hfull : ¬ cfg.RAWBUF ≤ 0 := by omega
  have hg : ¬ (t + 1) % cfg.timerMod < cfg.GAP_TICKS := by omega
  simp [interruptedResume, storeRawlen, storeRcvstate, enableIRIn1, ISR, hfull, hg]

theorem interruptedResume_reachable (cfg : Config) (irdata : Level) (p : irparams_t) :
    Reachable cfg (interruptedResume cfg irdata (enableIRIn1 p)) false :=
  Reachable.storeSecond (Reachable.tick irdata (Reachable.storeFirst (Reachable.arm p)))

/-- C16 at the failing input, for every configuration with `RAWBUF ≥ 1`:
`resume1` is called on an armed, idle receiver whose tick counter is about to
reach `GAP_TICKS`, and the timer interrupt reads a mark between the store on
line 146 and the store on line 147.  The state produced is `STATE_MARK` with
`rawlen = 0`, an even count; the next tick that reads a space records the
mark's duration at the even index 0, over the gap, and leaves `STATE_SPACE`
with `rawlen = 1`, odd and below 2. -/
theorem race_breaks_alternation (cfg : Config) (st : RcvState) (t n : Nat) (buf : Nat → Nat)
    (hbuf : 0 < cfg.RAWBUF) (hgap : cfg.GAP_TICKS ≤ (t + 1) % cfg.timerMod) :
    Reachable cfg (interruptedResume cfg Level.MARK (enableIRIn1 ⟨st, t, buf, n⟩)) false ∧
    (interruptedResume cfg Level.MARK (enableIRIn1 ⟨st, t, buf, n⟩)).rcvstate = .STATE_MARK ∧
    (interruptedResume cfg Level.MARK (enableIRIn1 ⟨st, t, buf, n⟩)).rawlen = 0 ∧
    recorded cfg Level.SPACE (interruptedResume cfg Level.MARK (enableIRIn1 ⟨st, t, buf, n⟩)) =
      some (0, Level.MARK) ∧
    Reachable cfg
      (ISR cfg Level.SPACE (interruptedResume cfg Level.MARK (enableIRIn1 ⟨st, t, buf, n⟩)))
      false ∧
    (ISR cfg Level.SPACE
      (interruptedResume cfg Level.MARK (enableIRIn1 ⟨st, t, buf, n⟩))).rcvstate =
        .STATE_SPACE ∧
    (ISR cfg Level.SPACE
      (interruptedResume cfg Level.MARK (enableIRIn1 ⟨st, t, buf, n⟩))).rawlen = 1 := by
  have hreach := interruptedResume_reachable cfg Level.MARK ⟨st, t, buf, n⟩
  have hfull : ¬ cfg.RAWBUF ≤ 0 := by omega
  refine ⟨hreach, ?_, ?_, ?_, Reachable.tick Level.SPACE hreach, ?_, ?_⟩ <;>
    rw [interruptedResume_eq cfg st t n buf hbuf hgap] <;> simp [recorded, ISR, hfull]

/-- Witness for C16's failing input: under the reference configuration, with
the tick counter at 150, the interrupted `resume1` leaves `STATE_MARK` with no
entry, and the next space tick records the mark at index 0. -/
theorem race_breaks_alternation_witness :
    Reachable refConfig racedState false ∧
    racedState.rcvstate = .STATE_MARK ∧ racedState.rawlen = 0 ∧
    recorded refConfig Level.SPACE racedState = some (0, Level.MARK) ∧
    Reachable refConfig (ISR refConfig Level.SPACE racedState) false ∧
    (ISR refConfig Level.SPACE racedState).rcvstate = .STATE_SPACE ∧
    (ISR refConfig Level.SPACE racedState).rawlen = 1 :=
  race_breaks_alternation refConfig .STATE_STOP 150 0 (fun _ => 0) (by decide) (by decide)

/-- C17 at the failing input, for every configuration with `RAWBUF ≥ 2` whose
tick counter can count past `GAP_TICKS`: after a `resume1` interrupted as in
`race_breaks_alternation` and `q ≥ GAP_TICKS + 2` ticks of silence the receiver
is in `STATE_STOP` with `rawlen = 1`; `decode1` then runs the NEC decode, which
reads index 1, not below `rawlen`. -/
theorem race_reads_past_rawlen (cfg : Config) (st : RcvState) (t n q : Nat) (buf : Nat → Nat)
    (results : decode_results) (hbuf : 2 ≤ cfg.RAWBUF)
    (hgap : cfg.GAP_TICKS ≤ (t + 1) % cfg.timerMod)
    (hcount : (cfg.GAP_TICKS + 1) % cfg.timerMod = cfg.GAP_TICKS + 1)
    (hq : cfg.GAP_TICKS + 2 ≤ q) :
    Reachable cfg (runISR cfg (List.replicate q Level.SPACE)
      (interruptedResume cfg Level.MARK (enableIRIn1 ⟨st, t, buf, n⟩))) false ∧
    (runISR cfg (List.replicate q Level.SPACE)
      (interruptedResume cfg Level.MARK (enableIRIn1 ⟨st, t, buf, n⟩))).rcvstate =
        .STATE_STOP ∧
    (runISR cfg (List.replicate q Level.SPACE)
      (interruptedResume cfg Level.MARK (enableIRIn1 ⟨st, t, buf, n⟩))).rawlen = 1 ∧
    (decode1 cfg (runISR cfg (List.replicate q Level.SPACE)
        (interruptedResume cfg Level.MARK (enableIRIn1 ⟨st, t, buf, n⟩))) results).1 =
      (decodeNEC1 cfg (runISR cfg (List.replicate q Level.SPACE)
        (interruptedResume cfg Level.MARK (enableIRIn1 ⟨st, t, buf, n⟩)))
        { results with
          rawbuf := (runISR cfg (List.replicate q Level.SPACE)
            (interruptedResume cfg Level.MARK (enableIRIn1 ⟨st, t, buf, n⟩))).rawbuf
          rawlen := (runISR cfg (List.replicate q Level.SPACE)
            (interruptedResume cfg Level.MARK (enableIRIn1 ⟨st, t, buf, n⟩))).rawlen }).1 ∧
    1 ∈ decodeNEC1Reads cfg (runISR cfg (List.replicate q Level.SPACE)
        (interruptedResume cfg Level.MARK (enableIRIn1 ⟨st, t, buf, n⟩)))
      { results with
        rawbuf := (runISR cfg (List.replicate q Level.SPACE)
          (interruptedResume cfg Level.MARK (enableIRIn1 ⟨st, t, buf, n⟩))).rawbuf
        rawlen := (runISR cfg (List.replicate q Level.SPACE)
          (interruptedResume cfg Level.MARK (enableIRIn1 ⟨st, t, buf, n⟩))).rawlen } ∧
    ¬ 1 < (runISR cfg (List.replicate q Level.SPACE)
      (interruptedResume cfg Level.MARK (enableIRIn1 ⟨st, t, buf, n⟩))).rawlen := by
  have hreach := reachable_runISR cfg (List.replicate q Level.SPACE) _ _
    (interruptedResume_reachable cfg Level.MARK ⟨st, t, buf, n⟩)
  obtain ⟨q, rfl⟩ : ∃ q', q = q' + 1 := ⟨q - 1, by omega⟩
  have hfull : ¬ cfg.RAWBUF ≤ 0 := by omega
  have hstep : ISR cfg Level.SPACE ⟨.STATE_MARK, 0, write buf 0 ((t + 1) % cfg.timerMod), 0⟩ =
      ⟨.STATE_SPACE, 0,
        write (write buf 0 ((t + 1) % cfg.timerMod)) 0 ((0 + 1) % cfg.timerMod), 0 + 1⟩ := by
    simp [ISR, hfull]
  have hrun : runISR cfg (List.replicate (q + 1) Level.SPACE)
      (interruptedResume cfg Level.MARK (enableIRIn1 ⟨st, t, buf, n⟩)) =
      runISR cfg (List.replicate q Level.SPACE)
        ⟨.STATE_SPACE, 0,
          write (write buf 0 ((t + 1) % cfg.timerMod)) 0 ((0 + 1) % cfg.timerMod), 0 + 1⟩ := by
    rw [interruptedResume_eq cfg st t n buf (by omega) hgap,
      runISR_replicate_succ cfg Level.SPACE q, hstep]
  obtain ⟨hs, hl, -⟩ := run_silence_stops cfg q (0 + 1)
    (write (write buf 0 ((t + 1) % cfg.timerMod)) 0 ((0 + 1) % cfg.timerMod)) hcount (by omega)
  rw [← hrun] at hs hl
  refine ⟨hreach, hs, hl, ?_, ?_, ?_⟩
  · generalize runISR cfg (List.replicate (q + 1) Level.SPACE)
      (interruptedResume cfg Level.MARK (enableIRIn1 ⟨st, t, buf, n⟩)) = p at hs
    rcases decodeNEC1_status cfg p { results with rawbuf := p.rawbuf, rawlen := p.rawlen }
      with h | h
    · simp [decode1, hs, h, ERR]
    · simp [decode1, hs, h, ERR, DECODED]
  · unfold decodeNEC1Reads
    exact List.mem_cons_self _ _
  · rw [hl]
    decide

/-- Witness for C17's failing input: under the reference configuration
(`RAWBUF = 100`), with the tick counter at 150 and 102 ticks of silence after
the interrupted `resume1`, the receiver is stopped with a single entry. -/
theorem race_reads_past_rawlen_witness :
    Reachable refConfig racedStop false ∧
    racedStop.rcvstate = .STATE_STOP ∧ racedStop.rawlen = 1 ∧
    1 ∈ decodeNEC1Reads refConfig racedStop
      { staleResults with rawbuf := racedStop.rawbuf, rawlen := racedStop.rawlen } ∧
    ¬ 1 < racedStop.rawlen :=
  have h := race_reads_past_rawlen refConfig .STATE_STOP 150 0 102 (fun _ => 0) staleResults
    (by decide) (by decide) (by decide) (by decide)
  ⟨h.1, h.2.1, h.2.2.1, h.2.2.2.2.1, h.2.2.2.2.2⟩

/-! ## Sampler: a gap as long as the range of the tick counter -/

/-- C14 at the failing input, for every width of the tick counter: let the
counter take `timerMod` values (65536 for a 16-bit `unsigned int`), with
`1 ≤ GAP_TICKS ≤ timerMod`.  From the armed state with counter 0, the stream of
`g = timerMod - 1` space samples, one mark sample and `q` space samples meets
the conditions of C14 (`g + 1 ≥ GAP_TICKS`, one mark run of one sample), but the
increment on the mark's tick wraps the counter to 0, the ISR takes the branch
"not big enough to be a gap", and the receiver stays in `STATE_IDLE` with
`rawlen = 0` and an untouched buffer instead of stopping with
`[g + 1, 1]`. -/
theorem wrapped_gap_is_dropped (cfg : Config) (hwidth : 0 < cfg.timerMod)
    (hgap : 0 < cfg.GAP_TICKS) (hgw : cfg.GAP_TICKS ≤ cfg.timerMod) (hbuf : 0 < cfg.RAWBUF)
    (st : RcvState) (buf : Nat → Nat) (n q : Nat) :
    cfg.GAP_TICKS ≤ (cfg.timerMod - 1) + 1 ∧
    (runISR cfg (List.replicate (cfg.timerMod - 1) Level.SPACE ++ pairSamples [] ++
        List.replicate 1 Level.MARK ++ List.replicate q Level.SPACE)
      (enableIRIn1 ⟨st, 0, buf, n⟩)).rcvstate = .STATE_IDLE ∧
    (runISR cfg (List.replicate (cfg.timerMod - 1) Level.SPACE ++ pairSamples [] ++
        List.replicate 1 Level.MARK ++ List.replicate q Level.SPACE)
      (enableIRIn1 ⟨st, 0, buf, n⟩)).rawlen = 0 ∧
    (runISR cfg (List.replicate (cfg.timerMod - 1) Level.SPACE ++ pairSamples [] ++
        List.replicate 1 Level.MARK ++ List.replicate q Level.SPACE)
      (enableIRIn1 ⟨st, 0, buf, n⟩)).rawbuf = buf := by
  have hstart : enableIRIn1 ⟨st, 0, buf, n⟩ = ⟨.STATE_IDLE, 0, buf, 0⟩ := rfl
  have hnext : (tickN cfg (cfg.timerMod - 1) 0 + 1) % cfg.timerMod = 0 := by
    rw [tickN_next]
    have e : 0 + (cfg.timerMod - 1) + 1 = cfg.timerMod := by omega
    rw [e, Nat.mod_self]
  have hrun : runISR cfg (List.replicate (cfg.timerMod - 1) Level.SPACE ++ pairSamples [] ++
        List.replicate 1 Level.MARK ++ List.replicate q Level.SPACE)
      (enableIRIn1 ⟨st, 0, buf, n⟩) = ⟨.STATE_IDLE, tickN cfg q 0, buf, 0⟩ := by
    rw [hstart, runISR_append, runISR_append, runISR_append,
      run_idle_spaces cfg _ _ _ _ hbuf]
    generalize tickN cfg (cfg.timerMod - 1) 0 = T at hnext
    have hpairs : runISR cfg (pairSamples []) ⟨.STATE_IDLE, T, buf, 0⟩ =
        ⟨.STATE_IDLE, T, buf, 0⟩ := rfl
    have hmark : runISR cfg (List.replicate 1 Level.MARK) ⟨.STATE_IDLE, T, buf, 0⟩ =
        ⟨.STATE_IDLE, 0, buf, 0⟩ := by
      show ISR cfg Level.MARK ⟨.STATE_IDLE, T, buf, 0⟩ = _
      have hfull : ¬ cfg.RAWBUF ≤ 0 := by omega
      simp only [ISR, hfull, ge_iff_le, if_false, if_true, hnext, hgap]
    rw [hpairs, hmark, run_idle_spaces cfg _ _ _ _ hbuf]
  rw [hrun]
  exact ⟨by omega, rfl, rfl, rfl⟩

/-- Witness for C14's failing input: the reference configuration has a 16-bit
counter; 65535 space samples, one mark sample and 102 space samples leave the
receiver idle and empty. -/
theorem wrapped_gap_is_dropped_witness :
    refConfig.timerMod - 1 = 65535 ∧
    (runISR refConfig (List.replicate (refConfig.timerMod - 1) Level.SPACE ++ pairSamples [] ++
        List.replicate 1 Level.MARK ++ List.replicate 102 Level.SPACE)
      (enableIRIn1 ⟨.STATE_STOP, 0, fun _ => 0, 0⟩)).rcvstate = .STATE_IDLE ∧
    (runISR refConfig (List.replicate (refConfig.timerMod - 1) Level.SPACE ++ pairSamples [] ++
        List.replicate 1 Level.MARK ++ List.replicate 102 Level.SPACE)
      (enableIRIn1 ⟨.STATE_STOP, 0, fun _ => 0, 0⟩)).rawlen = 0 :=
  have h := wrapped_gap_is_dropped refConfig (by decide) (by decide) (by decide) (by decide)
    .STATE_STOP (fun _ => 0) 0 102
  ⟨rfl, h.2.1, h.2.2.1⟩

end IR1
